import Mathlib

/-!
Verification development for the OpenAPI document resolver and schema
model builder of this repository.

The Python sources are shallowly embedded:

* `src/langchain/chains/api/openapi/parser.py` works on raw decoded
  JSON/YAML dictionaries.  We embed the dictionaries as the inductive
  `SchemaDict` (schema nodes), `ParamD` (parameter dictionaries),
  `OpD` (operation dictionaries), `SpecD` (whole documents), Python
  values produced by the resolver as `Value`, and the mutable
  `result`/`seen` pair threaded through the recursion as the state
  record `St`.  Python exceptions are the `Except Err` monad; the
  unbounded recursion of the source is rendered with an explicit fuel
  parameter (`.error .fuel` marks fuel exhaustion, which is not a
  Python exception).  Note on fidelity: the top-level helper functions
  of parser.py refer to the module-global name `spec` (a leftover of
  the closure-based original kept in the source's trailing comment
  block, where `spec` was the enclosing function's parameter); the
  embedding threads that document as an explicit argument.

* `src/langchain/tools/openapi/utils/openapi_utils.py` and
  `src/langchain/chains/api/openapi/typed_parser.py` work on the typed
  pydantic object model.  We embed schema-or-reference nodes as
  `TNode`, the document as `TSpec`, and in-place mutation of component
  nodes (the Python functions assign to attributes of objects that
  alias the entries of `spec.components.schemas`) as explicit
  state passing: a function that mutates a named component returns the
  updated `TSpec` with that entry replaced.

* The lenient validator loop (`parse_obj` of both `OpenAPISpec` and
  `_OpenAPIModel`, which are textually identical) is embedded over a
  generic JSON tree `JValue`; the external pydantic validation call is
  a parameter `v : JValue → List (List JKey)` returning the error
  locations (empty list = validation succeeded), exactly the data the
  loop consumes from `e.errors()`.
-/

namespace Lckg

/-! ## Association-list primitives (Python `dict` operations).

Python dictionaries preserve insertion order; `update` replaces the
value of an existing key in place and appends new keys; `pop` removes
the single entry of a key. -/

/-- First-match lookup, i.e. Python `d[k]` / `d.get(k)` on a dict with
unique keys. -/
def lookupA {α : Type} : List (String × α) → String → Option α
  | [], _ => none
  | (k, v) :: rest, key => if k = key then some v else lookupA rest key

/-- Python `d[k] = v`: replace in place if the key exists, else append. -/
def updateAssoc {α : Type} : List (String × α) → String → α → List (String × α)
  | [], k, v => [(k, v)]
  | (k', v') :: rest, k, v =>
    if k' = k then (k, v) :: rest else (k', v') :: updateAssoc rest k v

/-- Python `d.update(other)`: fold `updateAssoc` over the other dict's
entries in order. -/
def dictUpdate {α : Type} (m : List (String × α)) (other : List (String × α)) :
    List (String × α) :=
  other.foldl (fun acc e => updateAssoc acc e.1 e.2) m

/-- Python `d.pop(k, None)` on an order-preserving dict: drop the first
entry with the key, keep everything else. -/
def eraseFirstKey {α : Type} : List (String × α) → String → List (String × α)
  | [], _ => []
  | (k', v') :: rest, k =>
    if k' = k then rest else (k', v') :: eraseFirstKey rest k

/-- The keys of an association list, in order. -/
def keysOf {α : Type} (m : List (String × α)) : List String := m.map (fun e => e.1)

/-- Python `s.split(sep)` for a one-character separator, at the
character level (the library `String.splitOn` does not reduce inside
the kernel). -/
def splitCharsAux (sep : Char) : List Char → List (List Char)
  | [] => [[]]
  | c :: rest =>
    let r := splitCharsAux sep rest
    if c = sep then [] :: r
    else
      match r with
      | s :: t => (c :: s) :: t
      | [] => [[c]]

/-- Python `s.split("/")`. -/
def splitSlash (s : String) : List String :=
  (splitCharsAux '/' s.toList).map (fun l => ⟨l⟩)

/-- `ref.split("/")[-1]`: the tail segment of a reference string. -/
def lastSeg (s : String) : String := (splitSlash s).getLastD ""

/-- Python `str.strip()` with no argument: drop whitespace from both
ends. -/
def trimChars (s : String) : String :=
  ⟨((s.toList.dropWhile Char.isWhitespace).reverse.dropWhile
      Char.isWhitespace).reverse⟩

/-! ## Runtime values produced by parser.py's resolver.

`Value` stands for the Python values the resolution functions return:
primitive type objects (`int`, `float`, `str`, `bool`), Python `None`,
the bare-name string used as the cycle sentinel, dynamically created
pydantic model classes (name plus ordered fields, each field a pair of
a type and a required flag — Python encodes required as default `...`),
`list[T]` types and `typing.Union` types. -/

/-- The four primitive Python type objects of `PRIMITIVE_TYPES`. -/
inductive PK where
  | pint
  | pfloat
  | pstr
  | pbool
deriving DecidableEq, Repr

/-- A Python value produced by the resolver. -/
inductive Value where
  | prim (k : PK)
  | pynone
  | sentinel (name : String)
  | model (name : String) (fields : List (String × Value × Bool))
  | listOf (t : Value)
  | union (ts : List Value)

/-- Structural equality on `Value` (used to model `typing.Union`'s
deduplication of identical member types). -/
def valueBeq : Value → Value → Bool
  | .prim a, .prim b => a = b
  | .pynone, .pynone => true
  | .sentinel a, .sentinel b => a = b
  | .model n1 f1, .model n2 f2 => n1 = n2 && fieldsBeq f1 f2
  | .listOf a, .listOf b => valueBeq a b
  | .union a, .union b => listBeq a b
  | _, _ => false
where
  fieldsBeq : List (String × Value × Bool) → List (String × Value × Bool) → Bool
    | [], [] => true
    | (k1, v1, r1) :: t1, (k2, v2, r2) :: t2 =>
      k1 = k2 && r1 = r2 && valueBeq v1 v2 && fieldsBeq t1 t2
    | _, _ => false
  listBeq : List Value → List Value → Bool
    | [], [] => true
    | a :: t1, b :: t2 => valueBeq a b && listBeq t1 t2
    | _, _ => false

/-- Membership by `valueBeq`. -/
def memBeq (v : Value) : List Value → Bool
  | [] => false
  | x :: rest => valueBeq x v || memBeq v rest

/-- `typing.Union[...]`: flatten nested unions, deduplicate identical
members, and collapse a single member to itself. -/
def mkUnion (ts : List Value) : Value :=
  let flat := ts.foldl
    (fun acc t => match t with
      | .union us => acc ++ us
      | _ => acc ++ [t]) []
  let ded := flat.foldl (fun acc t => if memBeq t acc then acc else acc ++ [t]) []
  match ded with
  | [t] => t
  | l => .union l

/-- `PRIMITIVE_TYPES` of parser.py: name → Python type object, with
`"null"` mapped to Python `None`. -/
def primLookup : String → Option Value
  | "number" => some (.prim .pfloat)
  | "integer" => some (.prim .pint)
  | "string" => some (.prim .pstr)
  | "boolean" => some (.prim .pbool)
  | "null" => some .pynone
  | _ => none

/-- Python `model_def.get("type") in PRIMITIVE_TYPES` (absent key gives
`None`, which is not among the dict's keys). -/
def tyInPrimitives : Option String → Bool
  | some t => (primLookup t).isSome
  | none => false

/-- `PRIMITIVE_TYPES[t]` for a `t` known to be a key. -/
def primOfTy : Option String → Value
  | some t => (primLookup t).getD .pynone
  | none => .pynone

/-! ## Raw schema dictionaries.

`SchemaDict` is a decoded JSON schema node with exactly the keys
parser.py dispatches on (`$ref`, `anyOf`, `oneOf`, `allOf`, `type`,
`properties`, `required`, `items`, `default`); an `Option` field is
`none` when the key is absent.  Property values are `SProp`: either a
nested raw dictionary or an already-converted pydantic field — the
Python code stores `ref_model.__fields__` entries into the same dict as
raw sub-dictionaries and dispatches on `isinstance(prop_def, dict)`. -/

mutual

/-- A raw schema dictionary node. -/
inductive SchemaDict where
  | mk (ref : Option String)
       (anyOf : Option (List SchemaDict))
       (oneOf : Option (List SchemaDict))
       (allOf : Option (List SchemaDict))
       (ty : Option String)
       (properties : Option (List (String × SProp)))
       (required : Option (List String))
       (items : Option SchemaDict)
       (dflt : Option String)

/-- A property-dict value: raw nested dict, or an already-converted
pydantic field object (value and its required flag). -/
inductive SProp where
  | dictS (d : SchemaDict)
  | convV (v : Value) (r : Bool)

end

def SchemaDict.ref? : SchemaDict → Option String
  | .mk r _ _ _ _ _ _ _ _ => r

def SchemaDict.anyOf? : SchemaDict → Option (List SchemaDict)
  | .mk _ a _ _ _ _ _ _ _ => a

def SchemaDict.oneOf? : SchemaDict → Option (List SchemaDict)
  | .mk _ _ o _ _ _ _ _ _ => o

def SchemaDict.allOf? : SchemaDict → Option (List SchemaDict)
  | .mk _ _ _ a _ _ _ _ _ => a

def SchemaDict.ty? : SchemaDict → Option String
  | .mk _ _ _ _ t _ _ _ _ => t

def SchemaDict.properties? : SchemaDict → Option (List (String × SProp))
  | .mk _ _ _ _ _ p _ _ _ => p

def SchemaDict.required? : SchemaDict → Option (List String)
  | .mk _ _ _ _ _ _ r _ _ => r

def SchemaDict.items? : SchemaDict → Option SchemaDict
  | .mk _ _ _ _ _ _ _ i _ => i

def SchemaDict.dflt? : SchemaDict → Option String
  | .mk _ _ _ _ _ _ _ _ d => d

/-- The dictionary with no keys. -/
def SchemaDict.empty : SchemaDict := .mk none none none none none none none none none

/-- `{"type": t}`. -/
def primDict (t : String) : SchemaDict :=
  .mk none none none none (some t) none none none none

/-- `{"$ref": r}`. -/
def refDict (r : String) : SchemaDict :=
  .mk (some r) none none none none none none none none

/-- `{"properties": ps, "required": req}` — an inline object branch. -/
def objDict (ps : List (String × SProp)) (req : List String) : SchemaDict :=
  .mk none none none none none (some ps) (some req) none none

/-- `{"allOf": branches}`. -/
def allOfDict (branches : List SchemaDict) : SchemaDict :=
  .mk none none none (some branches) none none none none none

/-- Python truthiness of `schema.get("properties")`: present and
non-empty. -/
def truthyProps (d : SchemaDict) : Bool :=
  match d.properties? with
  | some (_ :: _) => true
  | _ => false

/-! ## Documents as decoded dictionaries (parser.py's `spec`). -/

/-- One entry of the `servers` list. -/
inductive ServerD where
  | mk (url : Option String)

def ServerD.url? : ServerD → Option String
  | .mk u => u

/-- A parameter dictionary (`components.parameters` entry or an inline
operation parameter): keys `$ref`, `name`, `in`, `required`, `schema`. -/
inductive ParamD where
  | mk (ref : Option String)
       (name : Option String)
       (loc : Option String)
       (required : Option Bool)
       (schema : Option SchemaDict)

def ParamD.ref? : ParamD → Option String
  | .mk r _ _ _ _ => r

def ParamD.name? : ParamD → Option String
  | .mk _ n _ _ _ => n

def ParamD.loc? : ParamD → Option String
  | .mk _ _ l _ _ => l

def ParamD.required? : ParamD → Option Bool
  | .mk _ _ _ r _ => r

def ParamD.schema? : ParamD → Option SchemaDict
  | .mk _ _ _ _ s => s

/-- The keys present in a parameter dictionary (for Python's
`ref_name not in parameter` membership test on the dict itself). -/
def ParamD.keys (p : ParamD) : List String :=
  (match p.ref? with | some _ => ["$ref"] | none => []) ++
  (match p.name? with | some _ => ["name"] | none => []) ++
  (match p.loc? with | some _ => ["in"] | none => []) ++
  (match p.required? with | some _ => ["required"] | none => []) ++
  (match p.schema? with | some _ => ["schema"] | none => [])

/-- An operation dictionary under `paths.<path>.<verb>`. -/
inductive OpD where
  | mk (operationId : Option String)
       (description : Option String)
       (parameters : Option (List ParamD))

def OpD.operationId? : OpD → Option String
  | .mk o _ _ => o

def OpD.description? : OpD → Option String
  | .mk _ d _ => d

def OpD.parameters? : OpD → Option (List ParamD)
  | .mk _ _ p => p

/-- Python truthiness of the operation dict (`if not operation`): an
empty dict is falsy. -/
def OpD.truthy : OpD → Bool
  | .mk none none none => false
  | _ => true

/-- The `components` section of a decoded document. -/
inductive CompsD where
  | mk (schemas : Option (List (String × SchemaDict)))
       (parameters : Option (List (String × ParamD)))

def CompsD.schemas? : CompsD → Option (List (String × SchemaDict))
  | .mk s _ => s

def CompsD.parameters? : CompsD → Option (List (String × ParamD))
  | .mk _ p => p

/-- A whole decoded document. -/
inductive SpecD where
  | mk (servers : Option (List ServerD))
       (paths : Option (List (String × List (String × OpD))))
       (components : Option CompsD)

def SpecD.servers? : SpecD → Option (List ServerD)
  | .mk s _ _ => s

def SpecD.paths? : SpecD → Option (List (String × List (String × OpD)))
  | .mk _ p _ => p

def SpecD.components? : SpecD → Option CompsD
  | .mk _ _ c => c

/-- `spec["components"]["schemas"][name]` navigation used by the `$ref`
branch of `_get_pydantic_type` (specialised to the schemas section; a
reference into a differently-typed section would fail the dictionary
navigation in the source as well). -/
def lookupSchemas (spec : SpecD) (name : String) : Option SchemaDict :=
  match spec.components? with
  | none => none
  | some comps =>
    match comps.schemas? with
    | none => none
    | some m => lookupA m name

/-! ## Errors and resolver state. -/

/-- Python exceptions raised by parser.py (plus `.fuel`, the marker for
exhausted recursion fuel in the embedding — not a Python exception). -/
inductive Err where
  | fuel
  | keyErr (k : String)
  | unsupportedAllOfBranch (s : SchemaDict)
  | unsupportedModelDef (s : SchemaDict)
  | unsupportedSchema (s : SchemaDict)
  | cannotMix (s : SchemaDict)
  | multiplePrims (s : SchemaDict)
  | attrErrNoFields
  | typeErrLoggerWarning
  | indexErr
  | noBaseUrl
  | paramRefNotFound (n : String)
  | typeErrMissingArg
  | notImplementedParamType
  | invalidLocation (s : String)
  | invalidVerb (s : String)

/-- The resolver's shared mutable state: the `result` components cache
and the `seen` visitation set (a Python `set` mutated in place and
never shrunk, embedded as an ordered list of names). -/
structure St where
  result : List (String × Value)
  seen : List String

def St.empty : St := ⟨[], []⟩

/-! ## parser.py: `_create_pydantic_model` and the mutually recursive
resolution functions. -/

/-- `_create_pydantic_model`: build a model value from a fields dict;
a field named `schema` shadows a pydantic attribute and is popped and
re-inserted at the end under the name `schema_`. -/
def createPydanticModel (name : String) (fields : List (String × Value × Bool)) :
    Value :=
  match lookupA fields "schema" with
  | none => .model name fields
  | some v => .model name (eraseFirstKey fields "schema" ++ [("schema_", v)])

/-- The names of the required fields of a converted model
(`value.default is ...` in the source). -/
def requiredOfFields (flds : List (String × Value × Bool)) : List String :=
  (flds.filter (fun f => f.2.2)).map (fun f => f.1)

/-- A converted model's `__fields__` as property-dict values. -/
def fieldsAsProps (flds : List (String × Value × Bool)) : List (String × SProp) :=
  flds.map (fun f => (f.1, .convV f.2.1 f.2.2))

mutual

/-- `_get_pydantic_type` of parser.py: convert one raw schema node to a
Python type value, threading the `result` cache and `seen` set. -/
def getPydanticType : Nat → SchemaDict → St → SpecD → Except Err (Value × St)
  | 0, _, _, _ => .error .fuel
  | n+1, schema, st, spec =>
    match schema.ref? with
    | some refStr =>
      let refPath := splitSlash refStr
      let refName := refPath.getLastD ""
      match lookupA st.result refName with
      | some cached => .ok (cached, st)
      | none =>
        -- navigate spec by the reference path
        match refPath with
        | ["#", "components", "schemas", nm] =>
          match lookupSchemas spec nm with
          | none => .error (.keyErr nm)
          | some refDef =>
            if tyInPrimitives refDef.ty? then .ok (primOfTy refDef.ty?, st)
            else if st.seen.contains refName then .ok (.sentinel refName, st)
            else
              match createComponentModel n refName refDef st spec with
              | .error e => .error e
              | .ok (v, st') =>
                -- result[ref_model_name] = ...; return result[ref_model_name]
                .ok (v, { result := updateAssoc st'.result refName v,
                          seen := st'.seen })
        | _ => .error (.keyErr refStr)
    | none =>
      if schema.ty? = some "object" || truthyProps schema then
        createComponentModel n "AnonymousModel" schema st spec
      else if schema.ty? = some "array" then
        match schema.items? with
        | none => .error (.keyErr "items")
        | some it =>
          match getPydanticType n it st spec with
          | .error e => .error e
          | .ok (t, st') => .ok (.listOf t, st')
      else if schema.ty? = some "integer" then .ok (.prim .pint, st)
      else if schema.ty? = some "number" then .ok (.prim .pfloat, st)
      else if schema.ty? = some "string" then .ok (.prim .pstr, st)
      else if schema.ty? = some "boolean" then .ok (.prim .pbool, st)
      else if schema.ty? = some "null" then .ok (.pynone, st)
      else if schema.oneOf?.isSome || schema.anyOf?.isSome then
        -- key = "oneOf" if present else "anyOf"
        let l := match schema.oneOf? with
          | some l => l
          | none => schema.anyOf?.getD []
        match mapGetPydanticType n l st spec with
        | .error e => .error e
        | .ok (ts, st') => .ok (mkUnion ts, st')
      else if schema.allOf?.isSome then
        match allOfLoopG n (schema.allOf?.getD []) [] [] [] st spec with
        | .error e => .error e
        | .ok (props, reqs, prims, st') =>
          if !prims.isEmpty then
            if !props.isEmpty then .error (.cannotMix schema)
            else match prims with
              | [p] => .ok (p, st')
              | _ => .error (.multiplePrims schema)
          else
            -- allof_def = {properties, type: object, required}
            createComponentModel n "MergedModel"
              (.mk none none none none (some "object") (some props) (some reqs)
                none none) st' spec
      else if schema.ty? = none then .ok (.pynone, st)
      else .error (.unsupportedSchema schema)

/-- The `allOf` loop of `_get_pydantic_type`: merge inline `properties`
branches, resolve `$ref` branches (with a fresh `seen` set, as the
source calls `_get_pydantic_type(s, result, spec)` without passing
`seen`), collect primitive resolutions, and skip anything else with a
warning. -/
def allOfLoopG : Nat → List SchemaDict → List (String × SProp) → List String →
    List Value → St → SpecD →
    Except Err (List (String × SProp) × List String × List Value × St)
  | fuel, l, props, reqs, prims, st, spec =>
    match l with
    | [] => .ok (props, reqs, prims, st)
    | s :: rest =>
    match fuel with
    | 0 => .error .fuel
    | n+1 =>
    if s.properties?.isSome then
      allOfLoopG n rest (dictUpdate props (s.properties?.getD []))
        (reqs ++ s.required?.getD []) prims st spec
    else if s.ref?.isSome then
      -- fresh seen set for this call; result cache is shared
      match getPydanticType n s ⟨st.result, []⟩ spec with
      | .error e => .error e
      | .ok (v, stIn) =>
        let st' : St := ⟨stIn.result, st.seen⟩
        match v with
        | .model _ flds =>
          allOfLoopG n rest (dictUpdate props (fieldsAsProps flds))
            (reqs ++ requiredOfFields flds) prims st' spec
        | _ => allOfLoopG n rest props reqs (prims ++ [v]) st' spec
    else
      -- logger.warning(...); continue
      allOfLoopG n rest props reqs prims st spec

/-- State-threaded conversion of a list of sub-schemas in order (the
list comprehensions over `oneOf`/`anyOf` branch lists). -/
def mapGetPydanticType : Nat → List SchemaDict → St → SpecD →
    Except Err (List Value × St)
  | fuel, l, st, spec =>
    match l with
    | [] => .ok ([], st)
    | s :: rest =>
    match fuel with
    | 0 => .error .fuel
    | n+1 =>
    match getPydanticType n s st spec with
    | .error e => .error e
    | .ok (v, st') =>
      match mapGetPydanticType n rest st' spec with
      | .error e => .error e
      | .ok (vs, st'') => .ok (v :: vs, st'')

/-- `_create_component_model` of parser.py. -/
def createComponentModel : Nat → String → SchemaDict → St → SpecD →
    Except Err (Value × St)
  | 0, _, _, _, _ => .error .fuel
  | n+1, name, d, st, spec =>
    if st.seen.contains name then
      -- Cycle detected in the spec definitions
      .ok (.sentinel name, st)
    else
      let st : St := ⟨st.result, st.seen ++ [name]⟩
      if d.anyOf?.isSome || d.oneOf?.isSome then
        -- key = "anyOf" if present else "oneOf"
        let l := match d.anyOf? with
          | some l => l
          | none => d.oneOf?.getD []
        match mapGetPydanticType n l st spec with
        | .error e => .error e
        | .ok (ts, st') =>
          match ts with
          | [t] => .ok (t, st')
          | _ => .ok (mkUnion ts, st')
      else if d.allOf?.isSome then
        match allOfLoopC n (d.allOf?.getD []) [] [] st spec with
        | .error e => .error e
        | .ok (props, reqs, st') =>
          createModelFromFields n name props reqs st' spec
      else if d.ty? = some "object" || truthyProps d then
        createModelFromFields n name (d.properties?.getD [])
          (d.required?.getD []) st spec
      else if tyInPrimitives d.ty? then .ok (primOfTy d.ty?, st)
      else if d.ty? = some "array" then
        match d.items? with
        | none => .error (.keyErr "items")
        | some it =>
          match getPydanticType n it st spec with
          | .error e => .error e
          | .ok (t, st') =>
            .ok (createPydanticModel name [("items", .listOf t, true)], st')
      else if d.ty? = none then .ok (.pynone, st)
      else .error (.unsupportedModelDef d)

/-- The `allOf` loop of `_create_component_model`: unlike the loop of
`_get_pydantic_type` it passes the shared `seen` set to the `$ref`
resolution, reads `__fields__` without a `hasattr` guard (an
`AttributeError` on non-model results), skips branches whose `type` is
`object` or absent, and raises on any other branch. -/
def allOfLoopC : Nat → List SchemaDict → List (String × SProp) → List String →
    St → SpecD → Except Err (List (String × SProp) × List String × St)
  | fuel, l, props, reqs, st, spec =>
    match l with
    | [] => .ok (props, reqs, st)
    | s :: rest =>
    match fuel with
    | 0 => .error .fuel
    | n+1 =>
    if s.properties?.isSome then
      allOfLoopC n rest (dictUpdate props (s.properties?.getD []))
        (reqs ++ s.required?.getD []) st spec
    else if s.ref?.isSome then
      match getPydanticType n s st spec with
      | .error e => .error e
      | .ok (v, st') =>
        match v with
        | .model _ flds =>
          allOfLoopC n rest (dictUpdate props (fieldsAsProps flds))
            (reqs ++ requiredOfFields flds) st' spec
        | _ => .error .attrErrNoFields
    else if s.ty? = some "object" || s.ty? = none then
      allOfLoopC n rest props reqs st spec
    else .error (.unsupportedAllOfBranch s)

/-- `_create_model_from_fields` of parser.py. -/
def createModelFromFields : Nat → String → List (String × SProp) → List String →
    St → SpecD → Except Err (Value × St)
  | 0, _, _, _, _, _ => .error .fuel
  | n+1, name, props, required, st, spec =>
    match fieldsLoop n props required st spec with
    | .error e => .error e
    | .ok (flds, st') => .ok (createPydanticModel name flds, st')

/-- The field-construction loop of `_create_model_from_fields`: convert
raw dict values through `_get_pydantic_type` (shared `seen`), take
already-converted values as they are, and mark a field required exactly
when its name is in the `required` list. -/
def fieldsLoop : Nat → List (String × SProp) → List String → St → SpecD →
    Except Err (List (String × Value × Bool) × St)
  | fuel, l, required, st, spec =>
    match l with
    | [] => .ok ([], st)
    | (pn, pv) :: rest =>
    match fuel with
    | 0 => .error .fuel
    | n+1 =>
    let conv : Except Err (Value × St) :=
      match pv with
      | .dictS d => getPydanticType n d st spec
      | .convV v _ => .ok (v, st)
    match conv with
    | .error e => .error e
    | .ok (t, st') =>
      match fieldsLoop n rest required st' spec with
      | .error e => .error e
      | .ok (restF, st'') => .ok ((pn, t, required.contains pn) :: restF, st'')

end

/-- `extract_components` of parser.py: convert every schema of
`components.schemas` in order, each with a fresh `seen` set, caching
into the shared `result` dict. -/
def extractComponentsLoop : Nat → List (String × SchemaDict) →
    List (String × Value) → SpecD → Except Err (List (String × Value))
  | fuel, l, result, spec =>
    match l with
    | [] => .ok result
    | (name, d) :: rest =>
    match fuel with
    | 0 => .error .fuel
    | n+1 =>
    match createComponentModel n name d ⟨result, []⟩ spec with
    | .error e => .error e
    | .ok (v, st') => extractComponentsLoop n rest (updateAssoc st'.result name v) spec

/-- `extract_components(spec)`. -/
def extractComponents (fuel : Nat) (spec : SpecD) : Except Err (List (String × Value)) :=
  let schemas := match spec.components? with
    | none => []
    | some comps => comps.schemas?.getD []
  extractComponentsLoop fuel schemas [] spec

/-! ## parser.py: operation ids and base URL. -/

/-- `re.sub(r"[^a-zA-Z0-9]", "_", ...)`: letters and digits preserved,
every other character replaced by an underscore. -/
def sanitizeChars (cs : List Char) : List Char :=
  cs.map (fun c => if c.isAlphanum then c else '_')

/-- Python `path.lstrip("/")`: drop every leading slash. -/
def lstripSlashes (cs : List Char) : List Char :=
  cs.dropWhile (fun c => c = '/')

/-- Python `s.replace(a, b)` for single-character patterns. -/
def replaceCharL (a b : Char) (cs : List Char) : List Char :=
  cs.map (fun c => if c = a then b else c)

/-- Python `verb.upper()`: uppercase character by character. -/
def upperChars (cs : List Char) : List Char := cs.map Char.toUpper

/-- `_get_cleaned_operation_id` of parser.py (identical to
`get_cleaned_operation_id` of typed_parser.py): when the spec gives no
operation id, synthesize one from the sanitized path and the uppercased
verb; in either case apply the `-`/`.`/`/` → `_` replacement chain. -/
def getCleanedOperationId (opId? : Option String) (path verb : String) : String :=
  let oid : List Char :=
    match opId? with
    | some o => o.toList
    | none => sanitizeChars (lstripSlashes path.toList) ++ upperChars verb.toList
  ⟨replaceCharL '/' '_' (replaceCharL '.' '_' (replaceCharL '-' '_' oid))⟩

/-- The derivation rule in the words of the specification, for
comparison with the implementation: strip the path's leading slashes,
replace every non-alphanumeric character with an underscore, append the
uppercased verb. -/
def derivedOperationIdSpec (path verb : String) : String :=
  ⟨sanitizeChars (lstripSlashes path.toList) ++ upperChars verb.toList⟩

/-- `_get_base_url_from_spec` of parser.py.  With more than one server
the source executes `logging.Logger.warning(f"...")` — calling the
unbound class method with the message string as `self` and no `msg`
argument, which raises a TypeError before any URL is returned. -/
def getBaseUrlFromSpec (spec : SpecD) : Except Err String :=
  let servers := spec.servers?.getD []
  if servers.length > 1 then .error .typeErrLoggerWarning
  else
    match servers with
    | [] => .error .indexErr
    | s :: _ =>
      let baseUrl := trimChars (s.url?.getD "")
      if baseUrl = "" then .error .noBaseUrl else .ok baseUrl

/-! ## parser.py: parameters and `parse_path`. -/

/-- `HTTPVerb` of the models module. -/
inductive HTTPVerbE where
  | get | put | post | delete | options | head | patch | trace
deriving DecidableEq, Repr

/-- The enum's string value. -/
def verbValue : HTTPVerbE → String
  | .get => "get"
  | .put => "put"
  | .post => "post"
  | .delete => "delete"
  | .options => "options"
  | .head => "head"
  | .patch => "patch"
  | .trace => "trace"

/-- `HTTPVerb.from_str`: parse or raise ValueError. -/
def httpVerbFromStr (v : String) : Except Err HTTPVerbE :=
  if v = "get" then .ok .get
  else if v = "put" then .ok .put
  else if v = "post" then .ok .post
  else if v = "delete" then .ok .delete
  else if v = "options" then .ok .options
  else if v = "head" then .ok .head
  else if v = "patch" then .ok .patch
  else if v = "trace" then .ok .trace
  else .error (.invalidVerb v)

/-- `APIPropertyLocation`. -/
inductive LocE where
  | query | path | header | cookie
deriving DecidableEq, Repr

/-- `APIPropertyLocation(value)`: parse or ValueError. -/
def parseLoc (s : String) : Option LocE :=
  if s = "query" then some .query
  else if s = "path" then some .path
  else if s = "header" then some .header
  else if s = "cookie" then some .cookie
  else none

mutual

/-- An entry of the full components dictionary: a converted schema value
or an `APIProperty` (the source mixes both in one dict). -/
inductive CompEntry where
  | val (v : Value)
  | prop (p : APIProp)

/-- `APIProperty` of the models module.  The `ty` field holds whatever
the source stores as the property's type — a primitive type value for
inline parameters, or a components-dict entry in the reference case. -/
inductive APIProp where
  | mk (friendly_name : String) (name : String) (required : Bool)
       (ty : CompEntry) (dflt : Option String) (location : LocE)

end

/-- `_create_pydantic_model_from_parameter` of parser.py.  Note the
source's reference branch tests `ref_name not in parameter` — membership
in the parameter dictionary itself, not in the components dictionary —
and, when the test passes, recurses with a missing argument (a
TypeError) if the referenced entry is Python `None`. -/
def createPydanticModelFromParameter (name : String) (pd : ParamD)
    (parameters : List (String × CompEntry)) :
    Except Err (List (String × CompEntry)) :=
  let required := pd.required?.getD false
  match pd.name? with
  | none => .error (.keyErr "name")
  | some paramName =>
    match pd.loc? with
    | none => .error (.keyErr "in")
    | some locs =>
      match parseLoc locs with
      | none => .error (.invalidLocation locs)
      | some loc =>
        match pd.schema? with
        | none => .error (.keyErr "schema")
        | some schema =>
          let tyE : Except Err CompEntry :=
            match schema.ty? with
            | some t =>
              match primLookup t with
              | none => .error (.keyErr t)
              | some v => .ok (.val v)
            | none =>
              match schema.ref? with
              | some r =>
                let refName := lastSeg r
                if pd.keys.contains refName then
                  match lookupA parameters refName with
                  | none => .error (.keyErr refName)
                  | some (.val .pynone) => .error .typeErrMissingArg
                  | some e => .ok e
                else .error (.paramRefNotFound refName)
              | none => .error .notImplementedParamType
          match tyE with
          | .error e => .error e
          | .ok ty =>
            .ok (updateAssoc parameters name
              (.prop (.mk name paramName required ty schema.dflt? loc)))

/-- Insertion into a lexicographically sorted list of strings. -/
def insertSorted (x : String) : List String → List String
  | [] => [x]
  | y :: rest => if x < y then x :: y :: rest else y :: insertSorted x rest

/-- Python `sorted` on a list of strings. -/
def sortStrings (l : List String) : List String := l.foldr insertSorted []

/-- `_parse_spec_parameters` of parser.py: iterate the sorted parameter
names and convert each one whose entry is still missing (Python `None`). -/
def parseSpecParametersLoop : List String → List (String × ParamD) →
    List (String × CompEntry) → Except Err (List (String × CompEntry))
  | [], _, parameters => .ok parameters
  | nm :: rest, specParams, parameters =>
    let isNone :=
      match lookupA parameters nm with
      | none => true
      | some (.val .pynone) => true
      | some _ => false
    if isNone then
      match lookupA specParams nm with
      | none => .error (.keyErr nm)
      | some pd =>
        match createPydanticModelFromParameter nm pd parameters with
        | .error e => .error e
        | .ok params' => parseSpecParametersLoop rest specParams params'
    else parseSpecParametersLoop rest specParams parameters

/-- `_extract_api_properties` of parser.py. -/
def extractApiPropertiesLoop : List ParamD → List (String × CompEntry) →
    Except Err (List CompEntry)
  | [], _ => .ok []
  | pd :: rest, components =>
    let oneE : Except Err CompEntry :=
      match pd.ref? with
      | some r =>
        let paramName := lastSeg r
        match lookupA components paramName with
        | none => .error (.paramRefNotFound paramName)
        | some e => .ok e
      | none =>
        match pd.schema? with
        | none => .error (.keyErr "schema")
        | some schema =>
          match schema.ty? with
          | none => .error (.keyErr "type")
          | some t =>
            match primLookup t with
            | none => .error (.keyErr t)
            | some tv =>
              match pd.name? with
              | none => .error (.keyErr "name")
              | some nm =>
                match pd.loc? with
                | none => .error (.keyErr "in")
                | some locs =>
                  match parseLoc locs with
                  | none => .error (.invalidLocation locs)
                  | some loc =>
                    .ok (.prop (.mk nm nm (pd.required?.getD false) (.val tv)
                      schema.dflt? loc))
    match oneE with
    | .error e => .error e
    | .ok property =>
      match extractApiPropertiesLoop rest components with
      | .error e => .error e
      | .ok rest' => .ok (property :: rest')

/-- `APIRequestBody` of the models module (parse_path always leaves the
request body as `None`; the structure is carried for the record type). -/
structure APIRequestBodyP where
  content_type : String
  media_type : String

/-- `APIOperation` of the models module. -/
structure APIOperationP where
  operation_id : String
  description : String
  base_url : String
  path : String
  method : HTTPVerbE
  properties : List CompEntry
  request_body : Option APIRequestBodyP

/-- `parse_path` of parser.py.  When the path or verb has no operation
the function returns `None` (embedded as `.ok none`) without raising. -/
def parsePath (fuel : Nat) (spec : SpecD) (path verb : String)
    (fullComponentsDict : Option (List (String × CompEntry))) :
    Except Err (Option APIOperationP) :=
  let pathsD := spec.paths?.getD []
  let pathItem := (lookupA pathsD path).getD []
  match lookupA pathItem verb with
  | none => .ok none
  | some operation =>
    if !operation.truthy then .ok none
    else
      let buildE : Except Err (List (String × CompEntry)) :=
        match fullComponentsDict with
        | some (h :: t) => .ok (h :: t)       -- truthy caller-supplied dict
        | _ =>
          match extractComponents fuel spec with
          | .error e => .error e
          | .ok vals =>
            let base := vals.map (fun e => (e.1, CompEntry.val e.2))
            let specParams :=
              match spec.components? with
              | none => []
              | some comps => comps.parameters?.getD []
            parseSpecParametersLoop (sortStrings (keysOf specParams)) specParams base
      match buildE with
      | .error e => .error e
      | .ok comps =>
        match extractApiPropertiesLoop (operation.parameters?.getD []) comps with
        | .error e => .error e
        | .ok properties =>
          match httpVerbFromStr verb with
          | .error e => .error e
          | .ok hv =>
            let operationId :=
              getCleanedOperationId operation.operationId? path (verbValue hv)
            match getBaseUrlFromSpec spec with
            | .error e => .error e
            | .ok baseUrl =>
              .ok (some ⟨operationId, operation.description?.getD "", baseUrl,
                path, hv, properties, none⟩)

/-! ## The typed object model (openapi_utils.py / typed_parser.py).

`TNode` is a `Union[Schema, Reference]` node of the pydantic model: a
`Reference` holds its `$ref` string (and the optional description the
OpenAPI 3.1 reference object allows), a `Schema` holds the fields the
embedded functions touch (`description`, `anyOf`, `properties`). -/

/-- A schema-or-reference node. -/
inductive TNode where
  | reference (ref : String) (description : Option String)
  | schema (description : Option String)
           (anyOf : Option (List TNode))
           (properties : Option (List (String × TNode)))

def TNode.description? : TNode → Option String
  | .reference _ d => d
  | .schema d _ _ => d

def TNode.anyOf? : TNode → Option (List TNode)
  | .reference _ _ => none
  | .schema _ a _ => a

def TNode.properties? : TNode → Option (List (String × TNode))
  | .reference _ _ => none
  | .schema _ _ p => p

/-- Is the node a `Reference`? -/
def TNode.isReference : TNode → Bool
  | .reference _ _ => true
  | .schema _ _ _ => false

/-- `schema.description = d` (attribute assignment). -/
def TNode.setDescription : TNode → Option String → TNode
  | .reference r _, nd => .reference r nd
  | .schema _ a p, nd => .schema nd a p

/-- A `Parameter` component. -/
structure TParameter where
  name : String
  required : Bool
  param_schema : Option TNode
  description : Option String

/-- A `MediaType` object. -/
structure TMediaType where
  media_type_schema : Option TNode

/-- A `RequestBody` object: content-type → media type (a `none` value
stands for a null entry, skipped by the source's falsiness check). -/
structure TRequestBody where
  content : Option (List (String × Option TMediaType))

/-- A `Response` object. -/
structure TResponse where
  content : Option (List (String × Option TMediaType))

/-- An `Operation` object (only the fields the embedded functions
touch). -/
structure TOperation where
  requestBody : Option TRequestBody

/-- A `PathItem`: one optional operation per HTTP verb attribute. -/
structure TPathItem where
  getOp : Option TOperation
  putOp : Option TOperation
  postOp : Option TOperation
  deleteOp : Option TOperation
  optionsOp : Option TOperation
  headOp : Option TOperation
  patchOp : Option TOperation
  traceOp : Option TOperation

/-- `getattr(path_item, method, None)`: the eight verb attributes exist;
any other attribute name yields the `None` default. -/
def TPathItem.verbAttr (pi : TPathItem) (method : String) : Option TOperation :=
  if method = "get" then pi.getOp
  else if method = "put" then pi.putOp
  else if method = "post" then pi.postOp
  else if method = "delete" then pi.deleteOp
  else if method = "options" then pi.optionsOp
  else if method = "head" then pi.headOp
  else if method = "patch" then pi.patchOp
  else if method = "trace" then pi.traceOp
  else none

/-- The `Components` object. -/
structure TComponents where
  schemas : Option (List (String × TNode))
  parameters : Option (List (String × TParameter))
  requestBodies : Option (List (String × TRequestBody))
  responses : Option (List (String × TResponse))

/-- The typed document. -/
structure TSpec where
  components : Option TComponents
  paths : Option (List (String × TPathItem))

/-- Write a component schema back into the document (the embedding of
an in-place mutation of a node aliasing `spec.components.schemas`). -/
def setSchema (name : String) (node : TNode) (sp : TSpec) : TSpec :=
  match sp.components with
  | none => sp
  | some comps =>
    match comps.schemas with
    | none => sp
    | some m =>
      ⟨some ⟨some (updateAssoc m name node), comps.parameters,
        comps.requestBodies, comps.responses⟩, sp.paths⟩

/-- Exceptions of the typed functions (plus the fuel marker). -/
inductive TErr where
  | fuel
  | valueError (msg : String)
  | attributeError (msg : String)
  | typeErrorNoneMembership
  | nonSchemaResolved

/-- The `Union[Schema, Parameter, RequestBody, Response]` result of
`_resolve_reference`. -/
inductive Resolved where
  | schemaR (s : TNode)
  | paramR (p : TParameter)
  | requestBodyR (r : TRequestBody)
  | responseR (r : TResponse)

/-! ### openapi_utils.py -/

/-- `OpenAPISpec.get_referenced_schema` (through `_components_strict`
and `_schema_strict`, whose error messages do not name the reference). -/
def getReferencedSchemaU (sp : TSpec) (ref : String) : Except TErr TNode :=
  match sp.components with
  | none => .error (.valueError "No components found in spec. ")
  | some comps =>
    match comps.schemas with
    | none => .error (.valueError "No schemas found in spec. ")
    | some m =>
      let refName := lastSeg ref
      match lookupA m refName with
      | none => .error (.valueError ("No schema found for " ++ refName))
      | some s => .ok s

/-- `OpenAPISpec._get_root_referenced_schema`: follow the reference
chain with a bare `while isinstance(schema, Reference)` loop — there is
no visitation set, so a cyclic chain never leaves the loop (the
embedding's fuel runs out where the source recurses forever). -/
def getRootReferencedSchemaU (sp : TSpec) : Nat → String → Except TErr TNode
  | 0, _ => .error .fuel
  | n+1, ref =>
    match getReferencedSchemaU sp ref with
    | .error e => .error e
    | .ok s =>
      match s with
      | .reference r _ => getRootReferencedSchemaU sp n r
      | node => .ok node

/-- `_get_root_referenced_schema` reaches a non-reference node at some
fuel. -/
def RootResolutionTerminates (sp : TSpec) (ref : String) : Prop :=
  ∃ n t, getRootReferencedSchemaU sp n ref = .ok t

/-- `OpenAPISpec.get_operation` (through `_paths_strict` and
`_get_path_strict`; the missing-path message interpolates the rebound
`path` variable, which at that point is the failed lookup's `None`). -/
def getOperationU (sp : TSpec) (path method : String) : Except TErr TOperation :=
  match sp.paths with
  | none => .error (.valueError "No paths found in spec")
  | some [] => .error (.valueError "No paths found in spec")
  | some l =>
    match lookupA l path with
    | none => .error (.valueError "No path found for None")
    | some pitem =>
      match pitem.verbAttr method with
      | none => .error (.valueError ("No " ++ method ++ " method found for " ++ path))
      | some op => .ok op

/-! ### typed_parser.py -/

/-- Python truthiness of an optional description string. -/
def descTruthy : Option String → Bool
  | some s => s ≠ ""
  | none => false

mutual

/-- `_resolve_reference` of typed_parser.py: look the tail name up in
`components.schemas` (recursively dereferencing the found node's
children, which mutates the stored component), then in `parameters`,
`requestBodies` and `responses`; a miss everywhere raises the ValueError
naming the full reference.  With no components section the attribute
access `spec.components.schemas` raises an AttributeError, and with a
components section lacking a schemas table the membership test
`ref_name in None` raises a TypeError. -/
def resolveReferenceT : Nat → String → TSpec → Except TErr (Resolved × TSpec)
  | 0, _, _ => .error .fuel
  | n+1, ref, sp =>
    let refName := lastSeg ref
    match sp.components with
    | none => .error (.attributeError "NoneType object has no attribute schemas")
    | some comps =>
      match comps.schemas with
      | none => .error .typeErrorNoneMembership
      | some m =>
        match lookupA m refName with
        | some s =>
          match dereferenceChildrenT n s sp with
          | .error e => .error e
          | .ok (s', sp') => .ok (.schemaR s', setSchema refName s' sp')
        | none =>
          match comps.parameters.bind (fun t => lookupA t refName) with
          | some p => .ok (.paramR p, sp)
          | none =>
            match comps.requestBodies.bind (fun t => lookupA t refName) with
            | some rb => .ok (.requestBodyR rb, sp)
            | none =>
              match comps.responses.bind (fun t => lookupA t refName) with
              | some r => .ok (.responseR r, sp)
              | none =>
                .error (.valueError ("Reference " ++ ref ++ " not found in spec"))

/-- `_dereference_children`: `_dereference_anyof` then
`_dereference_properties`, both mutating the node. -/
def dereferenceChildrenT : Nat → TNode → TSpec → Except TErr (TNode × TSpec)
  | 0, _, _ => .error .fuel
  | n+1, node, sp =>
    match dereferenceAnyofT n node sp with
    | .error e => .error e
    | .ok (node1, sp1) => dereferencePropertiesT n node1 sp1

/-- `_dereference_anyof`: when the node's `anyOf` list is truthy,
replace every `Reference` entry by its resolution and assign the new
list back to the node. -/
def dereferenceAnyofT : Nat → TNode → TSpec → Except TErr (TNode × TSpec)
  | 0, _, _ => .error .fuel
  | n+1, node, sp =>
    match node with
    | .reference _ _ =>
      .error (.attributeError "Reference object has no attribute anyOf")
    | .schema d a p =>
      match a with
      | none => .ok (.schema d a p, sp)
      | some [] => .ok (.schema d a p, sp)
      | some l =>
        match anyofLoopT n l sp with
        | .error e => .error e
        | .ok (l', sp') => .ok (.schema d (some l') p, sp')

/-- The entry loop of `_dereference_anyof` (non-reference entries are
kept as they are, without recursing into them). -/
def anyofLoopT : Nat → List TNode → TSpec → Except TErr (List TNode × TSpec)
  | fuel, l, sp =>
    match l with
    | [] => .ok ([], sp)
    | e :: rest =>
    match fuel with
    | 0 => .error .fuel
    | n+1 =>
    match e with
    | .reference r _ =>
      match resolveReferenceT n r sp with
      | .error er => .error er
      | .ok (res, sp') =>
        match res with
        | .schemaR s =>
          match anyofLoopT n rest sp' with
          | .error er => .error er
          | .ok (l, sp'') => .ok (s :: l, sp'')
        | _ => .error .nonSchemaResolved
    | s =>
      match anyofLoopT n rest sp with
      | .error er => .error er
      | .ok (l, sp') => .ok (s :: l, sp')

/-- `_dereference_properties`: when the node's `properties` map is
truthy, resolve every `Reference` value, dereference each resulting
entry's children, and assign the new map back to the node. -/
def dereferencePropertiesT : Nat → TNode → TSpec → Except TErr (TNode × TSpec)
  | 0, _, _ => .error .fuel
  | n+1, node, sp =>
    match node with
    | .reference _ _ =>
      .error (.attributeError "Reference object has no attribute properties")
    | .schema d a p =>
      match p with
      | none => .ok (.schema d a p, sp)
      | some [] => .ok (.schema d a p, sp)
      | some l =>
        match propsLoopT n l sp with
        | .error e => .error e
        | .ok (l', sp') => .ok (.schema d a (some l'), sp')

/-- The entry loop of `_dereference_properties`. -/
def propsLoopT : Nat → List (String × TNode) → TSpec →
    Except TErr (List (String × TNode) × TSpec)
  | fuel, l, sp =>
    match l with
    | [] => .ok ([], sp)
    | (k, v) :: rest =>
    match fuel with
    | 0 => .error .fuel
    | n+1 =>
    let resolvedE : Except TErr (TNode × TSpec) :=
      match v with
      | .reference r _ =>
        match resolveReferenceT n r sp with
        | .error er => .error er
        | .ok (res, sp') =>
          match res with
          | .schemaR s => .ok (s, sp')
          | _ => .error .nonSchemaResolved
      | s => .ok (s, sp)
    match resolvedE with
    | .error er => .error er
    | .ok (v1, sp1) =>
      match dereferenceChildrenT n v1 sp1 with
      | .error er => .error er
      | .ok (v2, sp2) =>
        match propsLoopT n rest sp2 with
        | .error er => .error er
        | .ok (l, sp3) => .ok ((k, v2) :: l, sp3)

end

/-- `resolve_schema` of typed_parser.py: resolve a reference if needed,
fill in an empty description, dereference children; every mutation of a
named component node writes through the alias into the document. -/
def resolveSchemaT : Nat → TNode → TSpec → Option String →
    Except TErr (TNode × TSpec)
  | 0, _, _, _ => .error .fuel
  | n+1, input, sp, description =>
    match input with
    | .reference r _ =>
      match resolveReferenceT n r sp with
      | .error e => .error e
      | .ok (res, sp1) =>
        match res with
        | .schemaR s =>
          let s1 := if descTruthy description && !descTruthy s.description?
            then s.setDescription description else s
          let sp2 := setSchema (lastSeg r) s1 sp1
          match dereferenceChildrenT n s1 sp2 with
          | .error e => .error e
          | .ok (s2, sp3) => .ok (s2, setSchema (lastSeg r) s2 sp3)
        | _ => .error .nonSchemaResolved
    | s =>
      let s1 := if descTruthy description && !descTruthy s.description?
        then s.setDescription description else s
      match dereferenceChildrenT n s1 sp with
      | .error e => .error e
      | .ok (s2, sp') => .ok (s2, sp')

/-- `_resolve_media_type_schema` of typed_parser.py: walk the content
map in declaration order, skip null media types and media types without
a schema, resolve `Reference` schemas (copying the reference object's
description onto a resolved schema that lacks one — a mutation of the
stored component through the alias), and collect the usable entries in
order. -/
def resolveMediaTypeSchemaT : Nat → List (String × Option TMediaType) → TSpec →
    Except TErr (List (String × TNode) × TSpec)
  | fuel, l, sp =>
    match l with
    | [] => .ok ([], sp)
    | (enc, mt?) :: rest =>
    match fuel with
    | 0 => .error .fuel
    | n+1 =>
    match mt? with
    | none => resolveMediaTypeSchemaT n rest sp
    | some mt =>
      match mt.media_type_schema with
      | none => resolveMediaTypeSchemaT n rest sp
      | some ms =>
        match ms with
        | .reference r rd =>
          match resolveReferenceT n r sp with
          | .error e => .error e
          | .ok (res, sp') =>
            match res with
            | .schemaR s =>
              let s1 := if !descTruthy s.description?
                then s.setDescription rd else s
              let sp2 := setSchema (lastSeg r) s1 sp'
              match resolveMediaTypeSchemaT n rest sp2 with
              | .error e => .error e
              | .ok (l, sp3) => .ok ((enc, s1) :: l, sp3)
            | _ => .error .nonSchemaResolved
        | s =>
          match resolveMediaTypeSchemaT n rest sp with
          | .error e => .error e
          | .ok (l, sp') => .ok ((enc, s) :: l, sp')

/-- Python `dict.popitem()`: remove and return the last inserted entry. -/
def popLast {α : Type} : List α → Option α
  | [] => none
  | [x] => some x
  | _ :: rest => popLast rest

/-- `_resolve_request_body_schema` of typed_parser.py: no request body
or no content is not an error (`(None, None)`); otherwise resolve the
whole content map and `popitem()` — the LAST usable entry — returning
`(schema, content_type)`. -/
def resolveRequestBodySchemaT : Nat → TOperation → TSpec →
    Except TErr ((Option TNode × Option String) × TSpec)
  | 0, _, _ => .error .fuel
  | n+1, op, sp =>
    match op.requestBody with
    | none => .ok ((none, none), sp)
    | some rb =>
      match rb.content with
      | none => .ok ((none, none), sp)
      | some [] => .ok ((none, none), sp)
      | some (c :: cs) =>
        match resolveMediaTypeSchemaT n (c :: cs) sp with
        | .error e => .error e
        | .ok (result, sp') =>
          match popLast result with
          | none => .ok ((none, none), sp')
          | some (enc, mt) => .ok ((some mt, some enc), sp')

/-! ## The lenient validator loop (`parse_obj` of `OpenAPISpec` in
openapi_utils.py and of `_OpenAPIModel` in typed_parser.py — the two
bodies are identical). -/

/-- One step of an error location (`error["loc"]`): a dict key or a
list index. -/
inductive JKey where
  | s (k : String)
  | i (n : Nat)

/-- A decoded JSON document tree. -/
inductive JValue where
  | obj (entries : List (String × JValue))
  | arr (elems : List JValue)
  | atom (a : String)

/-- Exceptions escaping the stripping loop (failed `item[key]`
navigation, or `pop` on a non-dict). -/
inductive SErr where
  | keyNav (k : String)
  | popNonDict
  | emptyLoc

/-- `item[key]`. -/
def jIndex : JValue → JKey → Option JValue
  | .obj es, .s k => lookupA es k
  | .arr xs, .i n => xs.get? n
  | _, _ => none

/-- Replace the child at a key known to exist. -/
def jSet : JValue → JKey → JValue → JValue
  | .obj es, .s k, v => .obj (updateAssoc es k v)
  | .arr xs, .i n, v => .arr (xs.set n v)
  | d, _, _ => d

/-- Strip one error location from the tree:
`item = new_obj; for key in keys[:-1]: item = item[key];
item.pop(keys[-1], None)`.  The final `pop` with a default is a no-op
when the field is already absent; failed navigation raises. -/
def stripAt : JValue → List JKey → Except SErr JValue
  | _, [] => .error .emptyLoc
  | d, [k] =>
    match d with
    | .obj es =>
      match k with
      | .s key => .ok (.obj (eraseFirstKey es key))
      | .i _ => .ok (.obj es)
    | _ => .error .popNonDict
  | d, k :: k2 :: rest =>
    match jIndex d k with
    | none =>
      .error (.keyNav (match k with | .s key => key | .i n => toString n))
    | some sub =>
      match stripAt sub (k2 :: rest) with
      | .error e => .error e
      | .ok sub' => .ok (jSet d k sub')

/-- Strip every reported location in order from the working copy. -/
def stripAll : JValue → List (List JKey) → Except SErr JValue
  | d, [] => .ok d
  | d, loc :: rest =>
    match stripAt d loc with
    | .error e => .error e
    | .ok d' => stripAll d' rest

/-- The `parse_obj` retry loop, over an abstract validator `v` giving
the error locations of a document (empty = the document validates).
The source recurses unconditionally after stripping; the embedding's
`none` marks fuel exhaustion — the source has no corresponding exit. -/
def parseObjFuel (v : JValue → List (List JKey)) :
    Nat → JValue → Option (Except SErr JValue)
  | 0, _ => none
  | n+1, d =>
    match v d with
    | [] => some (.ok d)
    | errs =>
      match stripAll d errs with
      | .error e => some (.error e)
      | .ok d' => parseObjFuel v n d'

/-- The retry loop reaches an exit (a validated document or a raised
exception) at some fuel. -/
def ParseObjTerminates (v : JValue → List (List JKey)) (d : JValue) : Prop :=
  ∃ n r, parseObjFuel v n d = some r

mutual

/-- Node count of a JSON tree (the termination measure for the
stripping loop). -/
def sizeJ : JValue → Nat
  | .obj es => 1 + sizeEntries es
  | .arr xs => 1 + sizeElems xs
  | .atom _ => 1

def sizeEntries : List (String × JValue) → Nat
  | [] => 0
  | (_, v) :: rest => 1 + sizeJ v + sizeEntries rest

def sizeElems : List JValue → Nat
  | [] => 0
  | v :: rest => 1 + sizeJ v + sizeElems rest

end

/-! ## Concrete documents used by the claim theorems. -/

/-- The empty decoded document. -/
def emptySpecD : SpecD := .mk none none none

/-- A typed document whose only schema component is a reference to
itself (`components.schemas.A = {"$ref": "#/components/schemas/A"}`). -/
def cyclicSpecT : TSpec :=
  ⟨some ⟨some [("A", .reference "#/components/schemas/A" none)], none, none, none⟩,
   none⟩

/-! ## C1 -/

/-- Helper for C1: on the self-referential document, every amount of
fuel is exhausted — each loop iteration of
`_get_root_referenced_schema` reproduces the same reference. -/
theorem rootRef_cyclic_fuel (n : Nat) :
    getRootReferencedSchemaU cyclicSpecT n "#/components/schemas/A" = .error .fuel := by
  induction n with
  | zero => rfl
  | succ k ih =>
    have hstep : getReferencedSchemaU cyclicSpecT "#/components/schemas/A"
        = .ok (.reference "#/components/schemas/A" none) := rfl
    unfold getRootReferencedSchemaU
    rw [hstep]
    exact ih

/-- C1, counterexample.  Resolution of the directly self-referential
schema `A` through `_get_root_referenced_schema` never terminates: the
`while isinstance(schema, Reference)` loop has no visitation set, so the
claim that resolution terminates for every self-referential schema is
false on this input. -/
theorem getRootReferencedSchemaU_self_reference_diverges :
    ¬ RootResolutionTerminates cyclicSpecT "#/components/schemas/A" := by
  rintro ⟨n, t, h⟩
  rw [rootRef_cyclic_fuel n] at h
  exact Except.noConfusion h

/-- C1, amended.  In parser.py's resolution a name already in the
active visitation set is answered with the bare-name cycle sentinel and
no error is raised — but (see the counterexample) the reference-chain
walker of openapi_utils.py has no visitation set and does not terminate
on a cyclic chain. -/
theorem createComponentModel_cycle_sentinel (f : Nat) (name : String) (d : SchemaDict)
    (st : St) (spec : SpecD) (h : st.seen.contains name = true) :
    createComponentModel (f+1) name d st spec = .ok (.sentinel name, st) := by
  unfold createComponentModel
  rw [if_pos h]

/-- Witness for C1 at a concrete input: the name `A` is in the
visitation set, so resolution returns the sentinel `A` without error. -/
theorem createComponentModel_cycle_sentinel_witness :
    createComponentModel 1 "A" SchemaDict.empty ⟨[], ["A"]⟩ emptySpecD
      = .ok (.sentinel "A", ⟨[], ["A"]⟩) :=
  createComponentModel_cycle_sentinel 0 "A" SchemaDict.empty ⟨[], ["A"]⟩ emptySpecD
    (by decide)

/-! ## C3 -/

/-- Helper: replacing a character that does not occur leaves the list
unchanged. -/
theorem replaceCharL_id (a b : Char) (cs : List Char) (h : ∀ c ∈ cs, c ≠ a) :
    replaceCharL a b cs = cs := by
  unfold replaceCharL
  induction cs with
  | nil => rfl
  | cons x rest ih =>
    have hx : x ≠ a := h x (List.mem_cons_self x rest)
    simp only [List.map_cons, if_neg hx]
    rw [ih (fun c hc => h c (List.mem_cons_of_mem x hc))]

/-- Helper: the sanitizer only emits alphanumeric characters and
underscores, so none of the replacement targets can occur. -/
theorem sanitizeChars_no_punct (l : List Char) :
    ∀ c ∈ sanitizeChars l, c ≠ '-' ∧ c ≠ '.' ∧ c ≠ '/' := by
  intro c hc
  unfold sanitizeChars at hc
  rcases List.mem_map.mp hc with ⟨x, _, rfl⟩
  by_cases hA : x.isAlphanum
  · simp only [if_pos hA]
    refine ⟨?_, ?_, ?_⟩ <;> (rintro rfl; revert hA; decide)
  · simp only [if_neg hA]
    refine ⟨by decide, by decide, by decide⟩

/-- C3, amended.  For a verb whose uppercased characters contain none
of `-`, `.`, `/` (every HTTP verb qualifies), the derived operation id
is exactly the specification's rule: strip the leading slashes, map
every non-alphanumeric character to an underscore, append the
uppercased verb.  (The claim's concrete example value is corrected by
the counterexample: `/users/{id}` with `get` yields `users__id_GET`.) -/
theorem cleaned_operation_id_matches_spec_rule (p v : String)
    (h : ∀ c ∈ upperChars v.toList, c ≠ '-' ∧ c ≠ '.' ∧ c ≠ '/') :
    getCleanedOperationId none p v = derivedOperationIdSpec p v := by
  show (⟨replaceCharL '/' '_' (replaceCharL '.' '_' (replaceCharL '-' '_'
      (sanitizeChars (lstripSlashes p.toList) ++ upperChars v.toList)))⟩ : String)
    = ⟨sanitizeChars (lstripSlashes p.toList) ++ upperChars v.toList⟩
  have hall : ∀ c ∈ sanitizeChars (lstripSlashes p.toList) ++ upperChars v.toList,
      c ≠ '-' ∧ c ≠ '.' ∧ c ≠ '/' := by
    intro c hc
    rcases List.mem_append.mp hc with h1 | h2
    · exact sanitizeChars_no_punct _ c h1
    · exact h c h2
  rw [replaceCharL_id '-' '_' _ (fun c hc => (hall c hc).1)]
  rw [replaceCharL_id '.' '_' _ (fun c hc => (hall c hc).2.1)]
  rw [replaceCharL_id '/' '_' _ (fun c hc => (hall c hc).2.2)]

/-- Witness for C3: the rule applies to the claim's own example input. -/
theorem cleaned_operation_id_matches_spec_rule_witness :
    getCleanedOperationId none "/users/{id}" "get"
      = derivedOperationIdSpec "/users/{id}" "get" :=
  cleaned_operation_id_matches_spec_rule "/users/{id}" "get" (by decide)

/-- C3, counterexample.  The derived id for path `/users/{id}` and verb
`get` is `users__id_GET` — each of the three non-alphanumeric
characters `/`, `{`, `}` becomes one underscore — not the claimed
`users__id__GET`. -/
theorem derived_operation_id_users_example :
    getCleanedOperationId none "/users/{id}" "get" = "users__id_GET"
    ∧ "users__id_GET" ≠ "users__id__GET" := by
  refine ⟨by decide, by decide⟩

/-! ## C7 -/

/-- C7 (code bug).  With two servers declared, `_get_base_url_from_spec`
raises a TypeError instead of logging a warning and returning the first
URL: the source calls `logging.Logger.warning(f"...")` — the unbound
class method receives the message as `self` and no `msg` argument.  The
claim describes the evident intent (the message text says "Selecting
first"); the code crashes. -/
theorem get_base_url_multiple_servers_type_error :
    getBaseUrlFromSpec (.mk (some [.mk (some "https://a.example"),
        .mk (some "https://b.example")]) none none)
      = .error .typeErrLoggerWarning := rfl

/-! ## C8 -/

/-- C8, amended.  `OpenAPISpec.get_operation` does fail with a
ValueError when the path is absent (though the message interpolates the
rebound variable and reads `No path found for None`); `parse_path`, by
contrast, silently returns no value (see the counterexample). -/
theorem get_operation_missing_path_raises (sp : TSpec)
    (l : List (String × TPathItem)) (p v : String)
    (hp : sp.paths = some l) (hne : l ≠ []) (hmiss : lookupA l p = none) :
    getOperationU sp p v = .error (.valueError "No path found for None") := by
  obtain ⟨x, xs, rfl⟩ := List.exists_cons_of_ne_nil hne
  unfold getOperationU
  rw [hp]
  simp [hmiss]

/-- Witness for C8 at a concrete document: the path `/x` is absent. -/
theorem get_operation_missing_path_raises_witness :
    getOperationU
      (⟨none, some [("/pets", ⟨none, none, none, none, none, none, none, none⟩)]⟩ : TSpec)
      "/x" "get" = .error (.valueError "No path found for None") :=
  get_operation_missing_path_raises _ _ "/x" "get" rfl (List.cons_ne_nil _ _) rfl

/-- C8, counterexample.  `parse_path` on a document without the
requested path returns `None` — no NotFoundError is raised and no
operation is produced, contradicting the claim that every such call
fails. -/
theorem parse_path_missing_operation_returns_none :
    parsePath 5 emptySpecD "/x" "get" none = .ok none := rfl

/-! ## C9 -/

/-- C9, amended.  When the document has a components section with a
schemas table, a `$ref` whose tail name is in none of the component
tables fails with the ValueError whose message names the full
reference.  (With no components section the lookup crashes with an
AttributeError instead — see the counterexample.) -/
theorem resolve_reference_missing_target_named_error (f : Nat) (ref : String)
    (sp : TSpec) (comps : TComponents) (m : List (String × TNode))
    (hc : sp.components = some comps) (hs : comps.schemas = some m)
    (h1 : lookupA m (lastSeg ref) = none)
    (h2 : comps.parameters.bind (fun t => lookupA t (lastSeg ref)) = none)
    (h3 : comps.requestBodies.bind (fun t => lookupA t (lastSeg ref)) = none)
    (h4 : comps.responses.bind (fun t => lookupA t (lastSeg ref)) = none) :
    resolveReferenceT (f+1) ref sp
      = .error (.valueError ("Reference " ++ ref ++ " not found in spec")) := by
  unfold resolveReferenceT
  simp only [hc, hs, h1, h2, h3, h4]

/-- Witness for C9 at a concrete document and reference. -/
theorem resolve_reference_missing_target_named_error_witness :
    resolveReferenceT 1 "#/components/schemas/Foo"
      (⟨some ⟨some [("Other", .schema none none none)], none, none, none⟩, none⟩ : TSpec)
      = .error (.valueError ("Reference " ++ "#/components/schemas/Foo"
          ++ " not found in spec")) :=
  resolve_reference_missing_target_named_error 0 "#/components/schemas/Foo"
    _ _ _ rfl rfl rfl rfl rfl rfl

/-- C9, counterexample.  On a document with no components section, the
attribute access `spec.components.schemas` raises an AttributeError —
an error that does not name the missing reference — so the claim that
every unresolvable `$ref` fails with a ResolutionError naming the exact
reference is false. -/
theorem resolve_reference_no_components_crash :
    resolveReferenceT 5 "#/components/schemas/Foo" (⟨none, none⟩ : TSpec)
      = .error (.attributeError "NoneType object has no attribute schemas") := rfl

/-! ## C4 -/

/-- A document whose component `A` has an `anyOf` containing a
reference to component `B` (a leaf schema). -/
def docBefore (dA dB rd : Option String) : TSpec :=
  ⟨some ⟨some [("A", .schema dA (some [.reference "#/components/schemas/B" rd]) none),
               ("B", .schema dB none none)], none, none, none⟩, none⟩

/-- The same document after resolution: the reference inside `A`'s
`anyOf` has been replaced in the stored component by the resolved
schema of `B`. -/
def docAfter (dA dB : Option String) : TSpec :=
  ⟨some ⟨some [("A", .schema dA (some [.schema dB none none]) none),
               ("B", .schema dB none none)], none, none, none⟩, none⟩

/-- C4, amended.  Resolution mutates the loaded document:
`resolve_schema` on a reference to `A` rewrites the stored component
`A` in place, replacing the `Reference` entry of its `anyOf` branch
list with the resolved schema node — the document tree after the call
differs from the tree before it. -/
theorem resolve_schema_dereference_mutates_document (f : Nat) (dA dB rd : Option String) :
    resolveSchemaT (f+8) (.reference "#/components/schemas/A" none)
        (docBefore dA dB rd) none
      = .ok (.schema dA (some [.schema dB none none]) none, docAfter dA dB) := rfl

/-- Does the first `anyOf` entry of component `A` remain a reference? -/
def firstAnyofEntryIsRef (sp : TSpec) : Bool :=
  match sp.components with
  | some comps =>
    match comps.schemas with
    | some m =>
      match lookupA m "A" with
      | some nd =>
        match nd.anyOf? with
        | some (e :: _) => e.isReference
        | _ => false
      | none => false
    | none => false
  | none => false

/-- C4, counterexample.  At the concrete document, the call returns a
document that is NOT structurally identical to the input: component
`A`'s `anyOf` entry was a `$ref` before the call and a resolved schema
after it, refuting the claim that the tree is identical before and
after every resolution call. -/
theorem document_changed_by_dereference :
    resolveSchemaT 9 (.reference "#/components/schemas/A" none)
        (docBefore none (some "bdesc") none) none
      = .ok (.schema none (some [.schema (some "bdesc") none none]) none,
             docAfter none (some "bdesc"))
    ∧ firstAnyofEntryIsRef (docBefore none (some "bdesc") none) = true
    ∧ firstAnyofEntryIsRef (docAfter none (some "bdesc")) = false
    ∧ docAfter none (some "bdesc") ≠ docBefore none (some "bdesc") none := by
  refine ⟨rfl, rfl, rfl, fun h => absurd (congrArg firstAnyofEntryIsRef h) (by decide)⟩

/-! ## C10 -/

/-- An operation whose request body declares the given content map with
inline (non-reference) schemas. -/
def mkInlineContent (l : List (String × TNode)) : TOperation :=
  ⟨some ⟨some (l.map (fun e => (e.1, some ⟨some e.2⟩)))⟩⟩

/-- Helper: on a content map of inline schemas the media-type walk
keeps every entry, in order, without touching the document. -/
theorem mediaLoop_inline (l : List (String × TNode)) : ∀ (n : Nat) (sp : TSpec),
    (∀ e ∈ l, e.2.isReference = false) → l.length ≤ n →
    resolveMediaTypeSchemaT n (l.map (fun e => (e.1, some ⟨some e.2⟩))) sp
      = .ok (l, sp) := by
  induction l with
  | nil =>
    intro n sp _ _
    cases n <;> rfl
  | cons x rest ih =>
    intro n sp h hn
    obtain ⟨m, rfl⟩ : ∃ m, n = m + 1 := ⟨n - 1, by simp at hn; omega⟩
    obtain ⟨enc, node⟩ := x
    have hx : node.isReference = false := h (enc, node) (List.mem_cons_self _ _)
    cases node with
    | reference r d => simp [TNode.isReference] at hx
    | schema d a p =>
      show (match resolveMediaTypeSchemaT m
            (rest.map (fun e => (e.1, some ⟨some e.2⟩))) sp with
        | Except.error e => Except.error e
        | Except.ok (l, sp') => Except.ok ((enc, TNode.schema d a p) :: l, sp'))
        = Except.ok ((enc, .schema d a p) :: rest, sp)
      rw [ih m sp (fun e he => h e (List.mem_cons_of_mem _ he)) (by simp at hn; omega)]

/-- Helper: `popitem` takes the last entry. -/
theorem popLast_cons {α : Type} (x : α) (l : List α) :
    popLast (x :: l) = some (l.getLastD x) := by
  induction l generalizing x with
  | nil => rfl
  | cons y rest ih =>
    show popLast (y :: rest) = some ((y :: rest).getLastD x)
    rw [ih y, List.getLastD_cons]

/-- C10, amended.  For a request body whose content map holds inline
schemas, `_resolve_request_body_schema` returns the LAST declared
usable entry (`dict.popitem()`), not the first of a preference order;
an operation without a request body yields `(None, None)` without
error. -/
theorem request_body_selects_last_usable_entry (f : Nat) (sp : TSpec)
    (x : String × TNode) (l : List (String × TNode))
    (h : ∀ e ∈ x :: l, e.2.isReference = false) :
    resolveRequestBodySchemaT (f + l.length + 2) (mkInlineContent (x :: l)) sp
      = .ok ((some (l.getLastD x).2, some (l.getLastD x).1), sp)
    ∧ resolveRequestBodySchemaT (f + l.length + 2) (⟨none⟩ : TOperation) sp
      = .ok ((none, none), sp) := by
  constructor
  · show (match resolveMediaTypeSchemaT (f + l.length + 1)
          ((x :: l).map (fun e => (e.1, some ⟨some e.2⟩))) sp with
        | Except.error e => Except.error e
        | Except.ok (result, sp') =>
          match popLast result with
          | none => Except.ok ((none, none), sp')
          | some (enc, mt) => Except.ok ((some mt, some enc), sp'))
      = Except.ok ((some (l.getLastD x).2, some (l.getLastD x).1), sp)
    rw [mediaLoop_inline (x :: l) (f + l.length + 1) sp h
      (by simp only [List.length_cons]; omega)]
    show (match popLast (x :: l) with
        | none =>
          (Except.ok ((none, none), sp) :
            Except TErr ((Option TNode × Option String) × TSpec))
        | some (enc, mt) => Except.ok ((some mt, some enc), sp))
      = Except.ok ((some (l.getLastD x).2, some (l.getLastD x).1), sp)
    rw [popLast_cons]
  · rfl

/-- Witness for C10: two inline content types declared, `json` first;
the last (`text/plain`) is selected; and the body-free operation
resolves to nothing. -/
theorem request_body_selects_last_usable_entry_witness :
    resolveRequestBodySchemaT 3
        (mkInlineContent [("application/json", .schema (some "A") none none),
          ("text/plain", .schema (some "B") none none)]) (⟨none, none⟩ : TSpec)
      = .ok ((some (.schema (some "B") none none), some "text/plain"),
             (⟨none, none⟩ : TSpec))
    ∧ resolveRequestBodySchemaT 3 (⟨none⟩ : TOperation) (⟨none, none⟩ : TSpec)
      = .ok ((none, none), (⟨none, none⟩ : TSpec)) :=
  request_body_selects_last_usable_entry 0 (⟨none, none⟩ : TSpec)
    ("application/json", .schema (some "A") none none)
    [("text/plain", .schema (some "B") none none)]
    (by intro e he
        rcases List.mem_cons.mp he with rfl | he2
        · rfl
        · rcases List.mem_cons.mp he2 with rfl | he3
          · rfl
          · cases he3)

/-- C10, counterexample.  With content `application/json` declared
first and `text/plain` second, the selected entry is `text/plain` —
not `application/json` — so the claimed preference order (json before
others) is false. -/
theorem request_body_popitem_not_json_preference :
    resolveRequestBodySchemaT 5
        (mkInlineContent [("application/json", .schema (some "A") none none),
          ("text/plain", .schema (some "B") none none)]) (⟨none, none⟩ : TSpec)
      = .ok ((some (.schema (some "B") none none), some "text/plain"),
             (⟨none, none⟩ : TSpec))
    ∧ "text/plain" ≠ "application/json" := ⟨rfl, by decide⟩

/-! ## C6 -/

/-- A validator behavior pydantic exhibits on the OpenAPI model: a
required top-level field (`openapi`) is missing, and the error location
names that absent field.  Popping an absent field is a no-op. -/
def reportMissingRequired (d : JValue) : List (List JKey) :=
  match d with
  | .obj es => if (lookupA es "openapi").isSome then [] else [[.s "openapi"]]
  | _ => [[.s "openapi"]]

/-- Helper for C6: stripping the absent field changes nothing, so every
amount of fuel is exhausted — the source recurses forever on this
document. -/
theorem parse_obj_fixpoint_fuel (n : Nat) :
    parseObjFuel reportMissingRequired n (.obj []) = none := by
  induction n with
  | zero => rfl
  | succ k ih => exact ih

/-- C6, counterexample.  On the empty document (validation always
reports the missing required field `openapi`, which cannot be
stripped), the `parse_obj` retry loop never terminates: there is no
escalation path when no field can be stripped, refuting the claim that
the repair loop always terminates. -/
theorem parse_obj_no_progress_diverges :
    ¬ ParseObjTerminates reportMissingRequired (.obj []) := by
  rintro ⟨n, r, h⟩
  rw [parse_obj_fixpoint_fuel n] at h
  exact Option.noConfusion h

/-- C6, amended.  The loop does strip exactly the reported fields from
a copy and retry, and it terminates with a validated document whenever
every failing round strips at least one present field (strictly
shrinking the document); but when stripping makes no progress the loop
retries unchanged forever (see the counterexample) — there is no
fatal-error escalation. -/
theorem parse_obj_terminates_with_progress (v : JValue → List (List JKey))
    (H : ∀ d, v d ≠ [] → ∃ d', stripAll d (v d) = .ok d' ∧ sizeJ d' < sizeJ d) :
    ∀ n d, sizeJ d < n →
      ∃ d', parseObjFuel v n d = some (.ok d') ∧ v d' = [] := by
  intro n
  induction n with
  | zero => intro d hd; omega
  | succ m ih =>
    intro d hd
    cases hveq : v d with
    | nil =>
      refine ⟨d, ?_, hveq⟩
      unfold parseObjFuel
      simp only [hveq]
    | cons e es =>
      obtain ⟨d', hstrip, hlt⟩ := H d (by rw [hveq]; exact List.cons_ne_nil _ _)
      rw [hveq] at hstrip
      obtain ⟨d'', h1, h2⟩ := ih d' (by omega)
      refine ⟨d'', ?_, h2⟩
      unfold parseObjFuel
      simp only [hveq, hstrip]
      exact h1

/-- A validator behavior with guaranteed progress: it reports the
top-level field `bad` exactly while that field is present. -/
def reportStrippableBad (d : JValue) : List (List JKey) :=
  match d with
  | .obj es => if (lookupA es "bad").isSome then [[.s "bad"]] else []
  | _ => []

/-- Helper: removing a present key strictly shrinks the entry list's
size. -/
theorem sizeEntries_erase_lt (es : List (String × JValue)) (k : String)
    (h : (lookupA es k).isSome = true) :
    sizeEntries (eraseFirstKey es k) < sizeEntries es := by
  induction es with
  | nil => simp [lookupA] at h
  | cons x rest ih =>
    obtain ⟨k', v'⟩ := x
    by_cases hk : k' = k
    · show sizeEntries (if k' = k then rest else _) < _
      rw [if_pos hk]
      show sizeEntries rest < 1 + sizeJ v' + sizeEntries rest
      omega
    · show sizeEntries (if k' = k then rest else (k', v') :: eraseFirstKey rest k) < _
      rw [if_neg hk]
      have h' : (lookupA rest k).isSome = true := by
        unfold lookupA at h
        rwa [if_neg hk] at h
      have := ih h'
      show 1 + sizeJ v' + sizeEntries (eraseFirstKey rest k)
        < 1 + sizeJ v' + sizeEntries rest
      omega

/-- Helper: `reportStrippableBad` satisfies the progress hypothesis. -/
theorem reportStrippableBad_progress :
    ∀ d, reportStrippableBad d ≠ [] →
      ∃ d', stripAll d (reportStrippableBad d) = .ok d' ∧ sizeJ d' < sizeJ d := by
  intro d hd
  cases d with
  | obj es =>
    by_cases hb : (lookupA es "bad").isSome
    · refine ⟨.obj (eraseFirstKey es "bad"), ?_, ?_⟩
      · show stripAll (.obj es) (reportStrippableBad (.obj es)) = _
        simp only [reportStrippableBad, hb, if_true]
        rfl
      · show sizeJ (.obj (eraseFirstKey es "bad")) < sizeJ (.obj es)
        have := sizeEntries_erase_lt es "bad" hb
        unfold sizeJ
        omega
    · exfalso
      apply hd
      simp only [reportStrippableBad, hb, if_false]
      rfl
  | arr xs => exact absurd rfl hd
  | atom a => exact absurd rfl hd

/-- Witness for C6: on a document with the strippable field `bad`, the
loop terminates with a validated document. -/
theorem parse_obj_terminates_with_progress_witness :
    ∃ d', parseObjFuel reportStrippableBad 4 (.obj [("bad", .atom "x")])
        = some (.ok d')
      ∧ reportStrippableBad d' = [] :=
  parse_obj_terminates_with_progress reportStrippableBad reportStrippableBad_progress
    4 (.obj [("bad", .atom "x")]) (by decide)

/-! ## C5 -/

/-- Helper: the possible values of the primitive-type table. -/
theorem primLookup_shape (t : String) (v : Value) (h : primLookup t = some v) :
    v = .prim .pfloat ∨ v = .prim .pint ∨ v = .prim .pstr ∨ v = .prim .pbool
      ∨ v = .pynone := by
  unfold primLookup at h
  split at h <;> simp_all

/-- Helper: a dict update never empties a dict. -/
theorem updateAssoc_ne_nil {α : Type} (m : List (String × α)) (k : String) (v : α) :
    updateAssoc m k v ≠ [] := by
  cases m with
  | nil => simp [updateAssoc]
  | cons x rest =>
    obtain ⟨k', v'⟩ := x
    unfold updateAssoc
    split <;> simp

/-- Helper: folding updates over a non-empty accumulator keeps it
non-empty. -/
theorem dictUpdate_acc_ne_nil {α : Type} (l : List (String × α)) :
    ∀ m : List (String × α), m ≠ [] → dictUpdate m l ≠ [] := by
  induction l with
  | nil => intro m hm; exact hm
  | cons x rest ih =>
    intro m _
    show dictUpdate (updateAssoc m x.1 x.2) rest ≠ []
    exact ih _ (updateAssoc_ne_nil m x.1 x.2)

/-- Helper: updating an empty dict with at least one entry gives a
non-empty dict. -/
theorem dictUpdate_isEmpty_false {α : Type} (m : List (String × α))
    (x : String × α) (l : List (String × α)) :
    (dictUpdate m (x :: l)).isEmpty = false := by
  have h := dictUpdate_acc_ne_nil l (updateAssoc m x.1 x.2) (updateAssoc_ne_nil m x.1 x.2)
  rcases hq : dictUpdate (updateAssoc m x.1 x.2) l with _ | ⟨z, zs⟩
  · exact absurd hq h
  · show (dictUpdate m (x :: l)).isEmpty = false
    rw [show dictUpdate m (x :: l) = dictUpdate (updateAssoc m x.1 x.2) l from rfl, hq]
    rfl

/-- Helper: a `$ref` to a component whose definition is a primitive
type short-circuits to the primitive Python type, without a cache
write, a visitation-set change, or an error. -/
theorem getPydanticType_ref_primitive (n : Nat) (r nm t : String) (pv : Value)
    (st : St) (spec : SpecD)
    (hsplit : splitSlash r = ["#", "components", "schemas", nm])
    (hres : lookupA st.result nm = none)
    (hspec : lookupSchemas spec nm = some (primDict t))
    (hprim : primLookup t = some pv) :
    getPydanticType (n+1) (refDict r) st spec = .ok (pv, st) := by
  unfold getPydanticType
  simp only [refDict, SchemaDict.ref?, hsplit]
  rw [show List.getLastD ["#", "components", "schemas", nm] "" = nm from rfl]
  simp only [hres, hspec, primDict, SchemaDict.ty?, tyInPrimitives, hprim,
    Option.isSome, primOfTy, Option.getD, if_true]

/-- The `allOf` mix of a `$ref` branch and an inline object branch. -/
def mixedAllOf (ps : List (String × SProp)) (req : List String) : SchemaDict :=
  allOfDict [refDict "#/components/schemas/Prim", objDict ps req]

/-- Helper: one `allOf` iteration on a `$ref` branch whose resolution
is a non-model value appends that value to the primitive collection. -/
theorem allOfLoopG_ref_prim_step (n : Nat) (rest : List SchemaDict)
    (props : List (String × SProp)) (reqs : List String) (prims : List Value)
    (st : St) (spec : SpecD) (r : String) (v : Value)
    (hv : getPydanticType n (refDict r) (⟨st.result, []⟩ : St) spec
      = .ok (v, (⟨st.result, []⟩ : St)))
    (hnm : ∀ nm flds, v ≠ .model nm flds) :
    allOfLoopG (n+1) (refDict r :: rest) props reqs prims st spec
      = allOfLoopG n rest props reqs (prims ++ [v]) (⟨st.result, st.seen⟩ : St) spec := by
  show (match getPydanticType n (refDict r) (⟨st.result, []⟩ : St) spec with
    | Except.error e => Except.error e
    | Except.ok (v', stIn) =>
      match v' with
      | Value.model _ flds =>
        allOfLoopG n rest (dictUpdate props (fieldsAsProps flds))
          (reqs ++ requiredOfFields flds) prims (⟨stIn.result, st.seen⟩ : St) spec
      | _ => allOfLoopG n rest props reqs (prims ++ [v'])
          (⟨stIn.result, st.seen⟩ : St) spec)
    = allOfLoopG n rest props reqs (prims ++ [v]) (⟨st.result, st.seen⟩ : St) spec
  rw [hv]
  cases v with
  | model nm flds => exact absurd rfl (hnm nm flds)
  | prim k => rfl
  | pynone => rfl
  | sentinel nm => rfl
  | listOf t => rfl
  | union ts => rfl

/-- C5, amended.  The CompositionError (`APIParsingError`, "Cannot mix
primitives and non-primitives in allOf") is raised when the primitive
branch is a `$ref` resolving to a primitive component and an object
branch contributed properties — but an INLINE primitive branch is
skipped with a warning instead of an error (see the counterexample). -/
theorem allOf_ref_primitive_with_object_raises (f : Nat) (t : String) (pv : Value)
    (ps : List (String × SProp)) (req : List String) (st : St) (spec : SpecD)
    (hprim : primLookup t = some pv)
    (hres : lookupA st.result "Prim" = none)
    (hspec : lookupSchemas spec "Prim" = some (primDict t))
    (hps : ps ≠ []) :
    getPydanticType (f+4) (mixedAllOf ps req) st spec
      = .error (.cannotMix (mixedAllOf ps req)) := by
  have hnm : ∀ nm flds, pv ≠ .model nm flds := by
    rcases primLookup_shape t pv hprim with rfl | rfl | rfl | rfl | rfl <;>
      exact fun nm flds h => Value.noConfusion h
  have href : getPydanticType (f+2) (refDict "#/components/schemas/Prim")
      (⟨st.result, []⟩ : St) spec = .ok (pv, (⟨st.result, []⟩ : St)) :=
    getPydanticType_ref_primitive (f+1) "#/components/schemas/Prim" "Prim" t pv
      (⟨st.result, []⟩ : St) spec rfl hres hspec hprim
  have hstep1 := allOfLoopG_ref_prim_step (f+2) [objDict ps req] [] [] [] st spec
    "#/components/schemas/Prim" pv href hnm
  have hstep2 : allOfLoopG (f+2) [objDict ps req] [] [] ([] ++ [pv])
      (⟨st.result, st.seen⟩ : St) spec
      = .ok (dictUpdate [] ps, [] ++ req, [] ++ [pv],
             (⟨st.result, st.seen⟩ : St)) := rfl
  unfold getPydanticType
  simp only [mixedAllOf, allOfDict, SchemaDict.ref?, SchemaDict.ty?,
    SchemaDict.oneOf?, SchemaDict.anyOf?, SchemaDict.allOf?, SchemaDict.properties?,
    truthyProps, Option.isSome, Option.getD]
  rw [hstep1, hstep2]
  obtain ⟨y, ys, rfl⟩ := List.exists_cons_of_ne_nil hps
  simp [dictUpdate_isEmpty_false, mixedAllOf, allOfDict]

/-- A document whose only schema component `Prim` is a primitive
string schema. -/
def specWithPrim : SpecD :=
  .mk none none (some (.mk (some [("Prim", primDict "string")]) none))

/-- Witness for C5: a `$ref` to the primitive component mixed with an
inline object branch raises the CompositionError. -/
theorem allOf_ref_primitive_with_object_raises_witness :
    getPydanticType 4 (mixedAllOf [("a", .dictS (primDict "integer"))] [])
        St.empty specWithPrim
      = .error (.cannotMix (mixedAllOf [("a", .dictS (primDict "integer"))] [])) :=
  allOf_ref_primitive_with_object_raises 0 "string" (.prim .pstr)
    [("a", .dictS (primDict "integer"))] [] St.empty specWithPrim
    rfl rfl rfl (List.cons_ne_nil _ _)

/-- The `allOf` mix of an inline primitive branch and an inline object
branch. -/
def inlinePrimMix : SchemaDict :=
  allOfDict [primDict "string", objDict [("a", .dictS (primDict "integer"))] ["a"]]

/-- C5, counterexample.  An allOf composition of an inline primitive
branch (`{"type": "string"}`) and an object branch succeeds with the
merged object model — the primitive branch is skipped with a warning,
no CompositionError is raised — refuting the claim for inline
primitive branches. -/
theorem allOf_inline_primitive_not_rejected :
    getPydanticType 6 inlinePrimMix St.empty emptySpecD
      = .ok (.model "MergedModel" [("a", .prim .pint, true)],
             (⟨[], ["MergedModel"]⟩ : St)) := rfl

/-! ## C2 -/

/-- First-occurrence deduplication starting from an accumulator: the
key order of a Python dict built by successive `update` calls. -/
def dedupFrom (acc : List String) (l : List String) : List String :=
  l.foldl (fun ks k => if ks.contains k then ks else ks ++ [k]) acc

/-- First-occurrence deduplication of a key list. -/
def dedupFirst (l : List String) : List String := dedupFrom [] l

/-- Helper: the keys after one dict write. -/
theorem keysOf_updateAssoc {α : Type} (m : List (String × α)) (k : String) (v : α) :
    keysOf (updateAssoc m k v)
      = if (keysOf m).contains k then keysOf m else keysOf m ++ [k] := by
  induction m with
  | nil => rfl
  | cons x rest ih =>
    obtain ⟨k', v'⟩ := x
    show keysOf (if k' = k then (k, v) :: rest else (k', v') :: updateAssoc rest k v)
      = if (k' :: keysOf rest).contains k then k' :: keysOf rest
        else (k' :: keysOf rest) ++ [k]
    by_cases h : k' = k
    · subst h
      rw [if_pos rfl, List.contains_cons]
      simp [keysOf]
    · rw [if_neg h]
      have h2 : (k == k') = false := by
        simp only [beq_eq_false_iff_ne, ne_eq]
        exact fun he => h he.symm
      rw [List.contains_cons, h2, Bool.false_or]
      show k' :: keysOf (updateAssoc rest k v) = _
      rw [ih]
      by_cases hc : (keysOf rest).contains k
      · rw [if_pos hc, if_pos hc]
      · rw [if_neg hc, if_neg hc]
        rfl

/-- Helper: the keys after a full dict update. -/
theorem keysOf_dictUpdate {α : Type} (l : List (String × α)) :
    ∀ m : List (String × α),
      keysOf (dictUpdate m l) = dedupFrom (keysOf m) (keysOf l) := by
  induction l with
  | nil => intro m; rfl
  | cons x rest ih =>
    intro m
    show keysOf (dictUpdate (updateAssoc m x.1 x.2) rest)
      = dedupFrom (keysOf m) (x.1 :: keysOf rest)
    rw [ih]
    show dedupFrom (keysOf (updateAssoc m x.1 x.2)) (keysOf rest)
      = dedupFrom (if (keysOf m).contains x.1 then keysOf m else keysOf m ++ [x.1])
          (keysOf rest)
    rw [keysOf_updateAssoc]

/-- Helper: deduplication over an appended list. -/
theorem dedupFrom_append (l1 l2 : List String) (acc : List String) :
    dedupFrom acc (l1 ++ l2) = dedupFrom (dedupFrom acc l1) l2 := by
  simp [dedupFrom, List.foldl_append]

/-- Helper: membership in the deduplicated list. -/
theorem mem_dedupFrom (l : List String) :
    ∀ (acc : List String) (k : String), k ∈ dedupFrom acc l ↔ k ∈ acc ∨ k ∈ l := by
  induction l with
  | nil => intro acc k; simp [dedupFrom]
  | cons x rest ih =>
    intro acc k
    show k ∈ dedupFrom (if acc.contains x then acc else acc ++ [x]) rest ↔ _
    rw [ih]
    by_cases hc : acc.contains x
    · rw [if_pos hc]
      have hx : x ∈ acc := List.elem_iff.mp hc
      constructor
      · rintro (h | h)
        · exact Or.inl h
        · exact Or.inr (List.mem_cons_of_mem _ h)
      · rintro (h | h2)
        · exact Or.inl h
        · rcases List.mem_cons.mp h2 with rfl | h3
          · exact Or.inl hx
          · exact Or.inr h3
    · rw [if_neg hc]
      constructor
      · rintro (h | h)
        · rcases List.mem_append.mp h with h4 | h4
          · exact Or.inl h4
          · rcases List.mem_cons.mp h4 with rfl | h5
            · exact Or.inr (List.mem_cons_self _ _)
            · cases h5
        · exact Or.inr (List.mem_cons_of_mem _ h)
      · rintro (h | h2)
        · exact Or.inl (List.mem_append.mpr (Or.inl h))
        · rcases List.mem_cons.mp h2 with rfl | h3
          · exact Or.inl (List.mem_append.mpr (Or.inr (List.mem_cons_self _ _)))
          · exact Or.inr h3

/-- The string name of a primitive kind in `PRIMITIVE_TYPES`. -/
def primName : PK → String
  | .pint => "integer"
  | .pfloat => "number"
  | .pstr => "string"
  | .pbool => "boolean"

/-- An inline object branch whose properties are primitive-typed. -/
def inlineObjBranch (b : List (String × PK) × List String) : SchemaDict :=
  objDict (b.1.map (fun e => (e.1, SProp.dictS (primDict (primName e.2))))) b.2

/-- The declared property names of one branch, in order. -/
def branchKeys (b : List (String × PK) × List String) : List String :=
  b.1.map (fun e => e.1)

/-- All branches' property names, concatenated in branch order. -/
def allKeysC (bs : List (List (String × PK) × List String)) : List String :=
  (bs.map branchKeys).flatten

/-- The `allOf` composition of inline object branches. -/
def allOfInline (bs : List (List (String × PK) × List String)) : SchemaDict :=
  allOfDict (bs.map inlineObjBranch)

/-- Helper: for a name not in the visitation set, an object-shaped
definition goes to `_create_model_from_fields` with the name newly
recorded. -/
theorem createComponentModel_object (n : Nat) (name : String)
    (props : List (String × SProp)) (reqs : List String) (st : St) (spec : SpecD)
    (hseen : st.seen.contains name = false) :
    createComponentModel (n+1) name
        (.mk none none none none (some "object") (some props) (some reqs) none none)
        st spec
      = createModelFromFields n name props reqs
          (⟨st.result, st.seen ++ [name]⟩ : St) spec := by
  unfold createComponentModel
  rw [if_neg (by rw [hseen]; exact Bool.false_ne_true)]
  rfl

/-- Helper: `_create_model_from_fields` wraps the field loop in
`_create_pydantic_model`. -/
theorem createModelFromFields_step (n : Nat) (name : String)
    (props : List (String × SProp)) (reqs : List String) (st : St) (spec : SpecD) :
    createModelFromFields (n+1) name props reqs st spec
      = (match fieldsLoop n props reqs st spec with
         | Except.error e => Except.error e
         | Except.ok (flds, st') => Except.ok (createPydanticModel name flds, st')) := rfl

/-- Helper: lookup misses when the key is not among the keys. -/
theorem lookupA_eq_none {α : Type} (m : List (String × α)) (k : String)
    (h : ¬ k ∈ keysOf m) : lookupA m k = none := by
  induction m with
  | nil => rfl
  | cons x rest ih =>
    show (if x.1 = k then some x.2 else lookupA rest k) = none
    rw [if_neg (fun he => h (by rw [← he]; exact List.mem_cons_self _ _))]
    exact ih (fun hm => h (List.mem_cons_of_mem _ hm))

/-- Helper: without a field named `schema`, `_create_pydantic_model`
performs no renaming. -/
theorem createPydanticModel_no_schema (name : String)
    (flds : List (String × Value × Bool)) (h : ¬ "schema" ∈ keysOf flds) :
    createPydanticModel name flds = .model name flds := by
  unfold createPydanticModel
  rw [lookupA_eq_none flds "schema" h]

/-- An object branch of an `allOf` composition: an inline object
schema with arbitrary property values, or a `$ref` recorded together
with the fields of the object model it resolves to. -/
inductive OBranch where
  | inlineB (ps : List (String × SProp)) (rq : List String)
  | refB (r : String) (flds : List (String × Value × Bool))

/-- The raw schema dict of a branch: the inline object, or the bare
`$ref` dict. -/
def OBranch.toDict : OBranch → SchemaDict
  | .inlineB ps rq => objDict ps rq
  | .refB r _ => refDict r

/-- The property dict a branch contributes to the merge: the declared
properties for an inline branch, the resolved model's `__fields__` for
a `$ref` branch. -/
def OBranch.props : OBranch → List (String × SProp)
  | .inlineB ps _ => ps
  | .refB _ flds => fieldsAsProps flds

/-- The property names a branch contributes, in declaration order. -/
def OBranch.keys : OBranch → List String
  | .inlineB ps _ => keysOf ps
  | .refB _ flds => flds.map (fun fd => fd.1)

/-- The required names a branch contributes: the declared `required`
list for an inline branch, the resolved model's default-less field
names for a `$ref` branch. -/
def OBranch.reqs : OBranch → List String
  | .inlineB _ rq => rq
  | .refB _ flds => requiredOfFields flds

/-- All branches' contributed property names, concatenated in branch
order. -/
def allKeysO (branches : List OBranch) : List String :=
  (branches.map OBranch.keys).flatten

/-- All branches' contributed required names, concatenated in branch
order. -/
def allReqO (branches : List OBranch) : List String :=
  (branches.map OBranch.reqs).flatten

/-- The merged property dictionary the `allOf` loop accumulates over
the branches. -/
def mergedPropsO (branches : List OBranch) : List (String × SProp) :=
  branches.foldl (fun acc b => dictUpdate acc b.props) []

/-- The `allOf` composition of the branches' schema dicts. -/
def allOfO (branches : List OBranch) : SchemaDict :=
  allOfDict (branches.map OBranch.toDict)

/-- The resolution facts the `allOf` loop of `_get_pydantic_type`
produces along the way: every `$ref` branch, resolved with a fresh
`seen` set over the `result` cache current at its turn, yields exactly
the object model whose fields the branch records (the loop then keeps
the possibly grown cache and restores the outer `seen` set); the fuel
decreases by one per branch. -/
def RefsResolve (spec : SpecD) : Nat → List OBranch → St → St → Prop
  | _, [], st, stF => stF = st
  | n, OBranch.inlineB _ _ :: rest, st, stF =>
      ∃ m, n = m + 1 ∧ RefsResolve spec m rest st stF
  | n, OBranch.refB r flds :: rest, st, stF =>
      ∃ m stIn nm, n = m + 1 ∧
        getPydanticType m (refDict r) (⟨st.result, []⟩ : St) spec
          = .ok (.model nm flds, stIn) ∧
        RefsResolve spec m rest (⟨stIn.result, st.seen⟩ : St) stF

/-- Helper: one `allOf` iteration on a `$ref` branch whose fresh-`seen`
resolution yields an object model merges the model's fields, extends
the required names by the model's default-less fields, restores the
outer `seen` set and keeps the inner cache. -/
theorem allOfLoopG_ref_model_step (n : Nat) (rest : List SchemaDict)
    (props : List (String × SProp)) (reqs : List String) (prims : List Value)
    (st stIn : St) (spec : SpecD) (r nm : String)
    (flds : List (String × Value × Bool))
    (hv : getPydanticType n (refDict r) (⟨st.result, []⟩ : St) spec
      = .ok (.model nm flds, stIn)) :
    allOfLoopG (n+1) (refDict r :: rest) props reqs prims st spec
      = allOfLoopG n rest (dictUpdate props (fieldsAsProps flds))
          (reqs ++ requiredOfFields flds) prims
          (⟨stIn.result, st.seen⟩ : St) spec := by
  show (match getPydanticType n (refDict r) (⟨st.result, []⟩ : St) spec with
    | Except.error e => Except.error e
    | Except.ok (v', stIn') =>
      match v' with
      | Value.model _ flds' =>
        allOfLoopG n rest (dictUpdate props (fieldsAsProps flds'))
          (reqs ++ requiredOfFields flds') prims (⟨stIn'.result, st.seen⟩ : St) spec
      | _ => allOfLoopG n rest props reqs (prims ++ [v'])
          (⟨stIn'.result, st.seen⟩ : St) spec)
    = allOfLoopG n rest (dictUpdate props (fieldsAsProps flds))
        (reqs ++ requiredOfFields flds) prims (⟨stIn.result, st.seen⟩ : St) spec
  rw [hv]

/-- Helper: the `allOf` loop of `_get_pydantic_type` over object
branches — inline objects or `$ref`s resolving to object models —
folds the branches' property dicts in order, concatenates their
required names, collects no primitives and ends in the chained
state. -/
theorem allOfLoopG_object (branches : List OBranch) :
    ∀ (n : Nat) (props : List (String × SProp)) (reqs : List String)
      (prims : List Value) (st stF : St) (spec : SpecD),
      RefsResolve spec n branches st stF →
      allOfLoopG n (branches.map OBranch.toDict) props reqs prims st spec
        = .ok (branches.foldl (fun acc b => dictUpdate acc b.props) props,
               reqs ++ allReqO branches, prims, stF) := by
  induction branches with
  | nil =>
    intro n props reqs prims st stF spec h
    have h2 : stF = st := h
    subst h2
    cases n <;>
      (simp only [allReqO, List.map_nil, List.flatten_nil, List.append_nil]; rfl)
  | cons b rest ih =>
    intro n props reqs prims st stF spec h
    cases b with
    | inlineB ps rq =>
      have h' : ∃ m, n = m + 1 ∧ RefsResolve spec m rest st stF := h
      obtain ⟨m, rfl, hrest⟩ := h'
      have hstep : allOfLoopG (m+1)
          ((OBranch.inlineB ps rq :: rest).map OBranch.toDict)
          props reqs prims st spec
          = allOfLoopG m (rest.map OBranch.toDict)
              (dictUpdate props ps) (reqs ++ rq) prims st spec := rfl
      rw [hstep, ih m _ _ _ _ _ _ hrest]
      simp [allReqO, OBranch.props, OBranch.reqs, List.append_assoc]
    | refB r flds =>
      have h' : ∃ m stIn nm, n = m + 1 ∧
          getPydanticType m (refDict r) (⟨st.result, []⟩ : St) spec
            = .ok (.model nm flds, stIn) ∧
          RefsResolve spec m rest (⟨stIn.result, st.seen⟩ : St) stF := h
      obtain ⟨m, stIn, nm, rfl, hget, hrest⟩ := h'
      have hstep : allOfLoopG (m+1)
          ((OBranch.refB r flds :: rest).map OBranch.toDict)
          props reqs prims st spec
          = allOfLoopG m (rest.map OBranch.toDict)
              (dictUpdate props (fieldsAsProps flds))
              (reqs ++ requiredOfFields flds) prims
              (⟨stIn.result, st.seen⟩ : St) spec :=
        allOfLoopG_ref_model_step m (rest.map OBranch.toDict) props reqs prims
          st stIn spec r nm flds hget
      rw [hstep, ih m _ _ _ _ _ _ hrest]
      simp [allReqO, OBranch.props, OBranch.reqs, List.append_assoc]

/-- Helper: whenever the field-construction loop succeeds — whatever
value each property converts to and however the state is threaded —
the produced fields carry the property names in declaration order,
each marked required exactly by membership of its name in the
`required` list. -/
theorem fieldsLoop_shape (props : List (String × SProp)) :
    ∀ (n : Nat) (required : List String) (st : St) (spec : SpecD)
      (flds : List (String × Value × Bool)) (stF : St),
      fieldsLoop n props required st spec = .ok (flds, stF) →
      flds.map (fun fd => (fd.1, fd.2.2))
        = props.map (fun e => (e.1, required.contains e.1)) := by
  induction props with
  | nil =>
    intro n required st spec flds stF h
    have h2 : ([] : List (String × Value × Bool)) = flds := by
      cases n with
      | zero =>
        have h' : (Except.ok (([] : List (String × Value × Bool)), st)
            : Except Err (List (String × Value × Bool) × St))
            = Except.ok (flds, stF) := h
        injection h' with h3
        exact congrArg Prod.fst h3
      | succ m =>
        have h' : (Except.ok (([] : List (String × Value × Bool)), st)
            : Except Err (List (String × Value × Bool) × St))
            = Except.ok (flds, stF) := h
        injection h' with h3
        exact congrArg Prod.fst h3
    rw [← h2]
    rfl
  | cons x rest ih =>
    intro n required st spec flds stF h
    obtain ⟨pn, pv⟩ := x
    cases n with
    | zero =>
      have h' : (Except.error Err.fuel
          : Except Err (List (String × Value × Bool) × St))
          = Except.ok (flds, stF) := h
      exact Except.noConfusion h'
    | succ m =>
      cases pv with
      | convV v rr =>
        have h' : (match fieldsLoop m rest required st spec with
            | Except.error e => Except.error e
            | Except.ok (restF, st'') =>
              Except.ok ((pn, v, required.contains pn) :: restF, st''))
            = Except.ok (flds, stF) := h
        rcases hrec : fieldsLoop m rest required st spec with e | p
        · rw [hrec] at h'
          have h'' : (Except.error e
              : Except Err (List (String × Value × Bool) × St))
              = Except.ok (flds, stF) := h'
          exact Except.noConfusion h''
        · obtain ⟨restF, st''⟩ := p
          rw [hrec] at h'
          have h'' : (Except.ok ((pn, v, required.contains pn) :: restF, st'')
              : Except Err (List (String × Value × Bool) × St))
              = Except.ok (flds, stF) := h'
          injection h'' with h3
          have h4 : (pn, v, required.contains pn) :: restF = flds :=
            congrArg Prod.fst h3
          rw [← h4]
          exact congrArg (List.cons (pn, required.contains pn))
            (ih m required st spec restF st'' hrec)
      | dictS d =>
        have h' : (match getPydanticType m d st spec with
            | Except.error e => Except.error e
            | Except.ok (t, st') =>
              match fieldsLoop m rest required st' spec with
              | Except.error e => Except.error e
              | Except.ok (restF, st'') =>
                Except.ok ((pn, t, required.contains pn) :: restF, st''))
            = Except.ok (flds, stF) := h
        rcases hconv : getPydanticType m d st spec with e | q
        · rw [hconv] at h'
          have h'' : (Except.error e
              : Except Err (List (String × Value × Bool) × St))
              = Except.ok (flds, stF) := h'
          exact Except.noConfusion h''
        · obtain ⟨t, st'⟩ := q
          rw [hconv] at h'
          have h2 : (match fieldsLoop m rest required st' spec with
              | Except.error e => Except.error e
              | Except.ok (restF, st'') =>
                Except.ok ((pn, t, required.contains pn) :: restF, st''))
              = Except.ok (flds, stF) := h'
          rcases hrec : fieldsLoop m rest required st' spec with e | p
          · rw [hrec] at h2
            have h'' : (Except.error e
                : Except Err (List (String × Value × Bool) × St))
                = Except.ok (flds, stF) := h2
            exact Except.noConfusion h''
          · obtain ⟨restF, st''⟩ := p
            rw [hrec] at h2
            have h'' : (Except.ok ((pn, t, required.contains pn) :: restF, st'')
                : Except Err (List (String × Value × Bool) × St))
                = Except.ok (flds, stF) := h2
            injection h'' with h3
            have h4 : (pn, t, required.contains pn) :: restF = flds :=
              congrArg Prod.fst h3
            rw [← h4]
            exact congrArg (List.cons (pn, required.contains pn))
              (ih m required st' spec restF st'' hrec)

/-- Helper: the keys of a successful field loop's output are the
property names it was given. -/
theorem keysOf_of_fieldshape (flds : List (String × Value × Bool))
    (props : List (String × SProp)) (required : List String)
    (h : flds.map (fun fd => (fd.1, fd.2.2))
      = props.map (fun e => (e.1, required.contains e.1))) :
    keysOf flds = keysOf props := by
  have h1 : (flds.map (fun fd => (fd.1, fd.2.2))).map (fun z => z.1)
      = keysOf flds := by
    simp [keysOf, List.map_map]
  have h2 : (props.map (fun e => (e.1, required.contains e.1))).map (fun z => z.1)
      = keysOf props := by
    simp [keysOf, List.map_map]
  rw [← h1, h, h2]

/-- Helper: each produced field's required flag is membership of its
name in the `required` list. -/
theorem reqflag_of_fieldshape (flds : List (String × Value × Bool))
    (props : List (String × SProp)) (required : List String)
    (h : flds.map (fun fd => (fd.1, fd.2.2))
      = props.map (fun e => (e.1, required.contains e.1))) :
    ∀ fd ∈ flds, fd.2.2 = required.contains fd.1 := by
  intro fd hfd
  have h1 : (fd.1, fd.2.2) ∈ flds.map (fun fd => (fd.1, fd.2.2)) :=
    List.mem_map.mpr ⟨fd, hfd, rfl⟩
  rw [h] at h1
  rcases List.mem_map.mp h1 with ⟨e, _, heq⟩
  have h2 : e.1 = fd.1 := congrArg Prod.fst heq
  have h3 : required.contains e.1 = fd.2.2 := congrArg Prod.snd heq
  rw [← h3, h2]

/-- Helper: the keys of one branch's contributed property dict are the
branch's contributed names. -/
theorem keysOf_OBranch_props (b : OBranch) : keysOf b.props = b.keys := by
  cases b with
  | inlineB ps rq => rfl
  | refB r flds =>
    simp [OBranch.props, OBranch.keys, fieldsAsProps, keysOf, List.map_map]

/-- Helper: the keys of the merged dictionary over object branches are
the deduplicated concatenation of the branches' keys, in
first-occurrence order. -/
theorem keysOf_mergedPropsO (branches : List OBranch) :
    ∀ props : List (String × SProp),
      keysOf (branches.foldl (fun acc b => dictUpdate acc b.props) props)
        = dedupFrom (keysOf props) (allKeysO branches) := by
  induction branches with
  | nil => intro props; simp [allKeysO, dedupFrom]
  | cons b rest ih =>
    intro props
    show keysOf (rest.foldl (fun acc b => dictUpdate acc b.props)
        (dictUpdate props b.props)) = _
    rw [ih, keysOf_dictUpdate, keysOf_OBranch_props]
    have h4 : allKeysO (b :: rest) = b.keys ++ allKeysO rest := by
      simp [allKeysO]
    rw [h4, dedupFrom_append]

/-- C2, amended.  For an `allOf` whose branches are object schemas —
inline objects or `$ref`s resolving to object models — and whose
resolution succeeds, with no property named `schema`: the merged
model's field set is the union of the branches' property sets (a
`$ref` branch contributing its resolved model's fields), branch
declaration order is preserved (the first occurrence of a name wins
its position), and a field is required exactly when its name is in the
union of the branches' required sets.  (A property named `schema`
breaks this: see the counterexample — it is renamed `schema_` and
moved to the end.) -/
theorem allOf_merge_property_union (branches : List OBranch)
    (st stF stFin : St) (spec : SpecD) (n : Nat)
    (flds : List (String × Value × Bool))
    (hres : RefsResolve spec (n+2) branches st stF)
    (hseen : stF.seen.contains "MergedModel" = false)
    (hflds : fieldsLoop n (mergedPropsO branches) (allReqO branches)
        (⟨stF.result, stF.seen ++ ["MergedModel"]⟩ : St) spec
      = .ok (flds, stFin))
    (hschema : ¬ "schema" ∈ allKeysO branches) :
    getPydanticType (n+3) (allOfO branches) st spec
      = .ok (.model "MergedModel" flds, stFin)
    ∧ keysOf flds = dedupFirst (allKeysO branches)
    ∧ (∀ kk, kk ∈ keysOf flds ↔ ∃ b ∈ branches, kk ∈ b.keys)
    ∧ ∀ fd ∈ flds, fd.2.2 = (allReqO branches).contains fd.1 := by
  have hshape := fieldsLoop_shape (mergedPropsO branches) n (allReqO branches)
    (⟨stF.result, stF.seen ++ ["MergedModel"]⟩ : St) spec flds stFin hflds
  have hkeys : keysOf flds = dedupFirst (allKeysO branches) := by
    rw [keysOf_of_fieldshape flds (mergedPropsO branches) (allReqO branches) hshape]
    exact keysOf_mergedPropsO branches []
  have hns : ¬ "schema" ∈ keysOf flds := by
    rw [hkeys]
    intro h3
    rcases (mem_dedupFrom (allKeysO branches) [] "schema").mp h3 with h4 | h4
    · cases h4
    · exact hschema h4
  refine ⟨?_, hkeys, ?_, ?_⟩
  · unfold getPydanticType
    simp only [allOfO, allOfDict, SchemaDict.ref?, SchemaDict.ty?,
      SchemaDict.oneOf?, SchemaDict.anyOf?, SchemaDict.allOf?,
      SchemaDict.properties?, truthyProps, Option.isSome, Option.getD]
    rw [allOfLoopG_object branches (n+2) [] [] [] st stF spec hres]
    show createComponentModel (n+2) "MergedModel"
        (.mk none none none none (some "object") (some (mergedPropsO branches))
          (some (allReqO branches)) none none) stF spec = _
    rw [createComponentModel_object (n+1) "MergedModel" (mergedPropsO branches)
      (allReqO branches) stF spec hseen]
    rw [createModelFromFields_step n]
    rw [hflds]
    show Except.ok (createPydanticModel "MergedModel" flds, stFin) = _
    rw [createPydanticModel_no_schema "MergedModel" flds hns]
  · intro kk
    rw [hkeys]
    have h2 := mem_dedupFrom (allKeysO branches) [] kk
    constructor
    · intro h3
      rcases h2.mp h3 with h4 | h4
      · cases h4
      · rcases List.mem_flatten.mp h4 with ⟨l, hl, hkl⟩
        rcases List.mem_map.mp hl with ⟨b, hb, rfl⟩
        exact ⟨b, hb, hkl⟩
    · rintro ⟨b, hb, hkb⟩
      exact h2.mpr (Or.inr (List.mem_flatten.mpr
        ⟨OBranch.keys b, List.mem_map.mpr ⟨b, hb, rfl⟩, hkb⟩))
  · exact reqflag_of_fieldshape flds (mergedPropsO branches) (allReqO branches)
      hshape

/-- A document whose only schema component `B` is an object schema
with one required integer property `b`. -/
def specWithObjB : SpecD :=
  .mk none none (some (.mk
    (some [("B", objDict [("b", .dictS (primDict "integer"))] ["b"])]) none))

/-- The witness branches: an inline object branch `a : string`
(required) and a `$ref` branch resolving to the object component
`B`. -/
def objBranchesW : List OBranch :=
  [OBranch.inlineB [("a", .dictS (primDict "string"))] ["a"],
   OBranch.refB "#/components/schemas/B" [("b", .prim .pint, true)]]

/-- Witness for C2: merging the inline branch with the `$ref`-to-object
branch yields both fields in branch order, each required by the union
of the required sets. -/
theorem allOf_merge_property_union_witness :
    getPydanticType 8 (allOfO objBranchesW) St.empty specWithObjB
      = .ok (.model "MergedModel"
          [("a", .prim .pstr, true), ("b", .prim .pint, true)],
          (⟨[("B", Value.model "B" [("b", .prim .pint, true)])],
            ["MergedModel"]⟩ : St))
    ∧ keysOf [("a", Value.prim PK.pstr, true), ("b", Value.prim PK.pint, true)]
      = dedupFirst (allKeysO objBranchesW)
    ∧ (∀ kk, kk ∈ keysOf
          [("a", Value.prim PK.pstr, true), ("b", Value.prim PK.pint, true)]
        ↔ ∃ b ∈ objBranchesW, kk ∈ b.keys)
    ∧ ∀ fd ∈ [("a", Value.prim PK.pstr, true), ("b", Value.prim PK.pint, true)],
        fd.2.2 = (allReqO objBranchesW).contains fd.1 :=
  allOf_merge_property_union objBranchesW St.empty
    (⟨[("B", Value.model "B" [("b", .prim .pint, true)])], []⟩ : St)
    (⟨[("B", Value.model "B" [("b", .prim .pint, true)])],
      ["MergedModel"]⟩ : St)
    specWithObjB 5
    [("a", .prim .pstr, true), ("b", .prim .pint, true)]
    ⟨6, rfl, 5,
      (⟨[("B", Value.model "B" [("b", .prim .pint, true)])], ["B"]⟩ : St),
      "B", rfl, rfl, rfl⟩
    rfl rfl (by decide)

/-- C2, counterexample.  With a branch declaring a property literally
named `schema`, the merged model's field set is NOT the union of the
branches' property sets: the field comes out renamed `schema_` and
moved to the end (`_create_pydantic_model` pops it to avoid shadowing
a pydantic attribute), so the claim fails on this input. -/
theorem allOf_merge_renames_schema_property :
    getPydanticType 6
        (allOfInline [([("a", PK.pint)], ["a"]), ([("schema", PK.pstr)], [])])
        St.empty emptySpecD
      = .ok (.model "MergedModel"
          [("a", .prim .pint, true), ("schema_", .prim .pstr, false)],
          (⟨[], ["MergedModel"]⟩ : St))
    ∧ "schema" ∈ allKeysC [([("a", PK.pint)], ["a"]), ([("schema", PK.pstr)], [])]
    ∧ ¬ "schema" ∈ ["a", "schema_"]
    ∧ "schema_" ∈ ["a", "schema_"] := by
  refine ⟨rfl, by decide, by decide, by decide⟩